import Mathlib

/-!
Verification development for the `jackchuma/state-diff` repository.

The repository's core is a caching, RPC-backed EVM state store
(`internal/state/caching.go`, package `state` — the revision embedded in the
`jackchuma/state-diff` module, with the `isSet` flag on `StorageDiff` and the
`isOverride` parameter of `setState`) plus a report renderer
(`internal/template/template.go` and the Markdown renderer variant).

Shallow-embedding conventions used throughout:
* `common.Address` and `common.Hash` are represented by their rendered hex
  strings (`Address.String()` / `Hash.Hex()`), the form in which every claim
  compares, sorts and prints them.  `Hash.Hex()` is `0x` + 64 lowercase hex
  characters; the zero value of `common.Hash` renders as `zeroHash`.
* `*uint256.Int` values are pointers in Go and the balance code aliases them
  (the cache and the diff share pointers), so balances are modelled with an
  explicit heap: a pointer is an index into `CachingStateDB.heap`, and
  `uint256` arithmetic is `Nat` arithmetic modulo `2^256`.
* The remote RPC is a fixed function (the block number is pinned for the whole
  run); a failed fetch is `none`, matching the code's error branches.
* Go maps (`db.diffs`, `StateDiff.StorageDiffs`, `db.preimages`) are modelled
  as association lists with insert-or-replace update; the single `sync.Map`
  keyed by keccak-composite keys is modelled as one cache list per kind, the
  composite key scheme being injective by construction.
-/

namespace StateDiffRepo

abbrev Addr := String
abbrev Hash := String

/-- `2^256`, the modulus of `uint256` arithmetic. -/
def W256 : Nat := 2 ^ 256

/-- Rendering of the zero `common.Hash` (`0x` + 64 zeros). -/
def zeroHash : Hash := "0x" ++ String.mk (List.replicate 64 '0')

/-- Association-list lookup (Go map read). -/
def lookupA {α β : Type} [DecidableEq α] : List (α × β) → α → Option β
  | [], _ => none
  | (k', v') :: t, k => if k' = k then some v' else lookupA t k

/-- Association-list insert-or-replace (Go map write). -/
def upsertA {α β : Type} [DecidableEq α] : List (α × β) → α → β → List (α × β)
  | [], k, v => [(k, v)]
  | (k', v') :: t, k, v => if k' = k then (k, v) :: t else (k', v') :: upsertA t k v

theorem lookupA_upsertA_self {α β : Type} [DecidableEq α] (l : List (α × β)) (k : α) (v : β) :
    lookupA (upsertA l k v) k = some v := by
  induction l with
  | nil => simp [lookupA, upsertA]
  | cons h t ih =>
    obtain ⟨k', v'⟩ := h
    by_cases hk : k' = k <;> simp [lookupA, upsertA, hk, ih]

theorem lookupA_upsertA_ne {α β : Type} [DecidableEq α] (l : List (α × β)) (k k' : α) (v : β)
    (h : k' ≠ k) : lookupA (upsertA l k v) k' = lookupA l k' := by
  induction l with
  | nil => simp [lookupA, upsertA, Ne.symm h]
  | cons hd t ih =>
    obtain ⟨k₀, v₀⟩ := hd
    by_cases hk : k₀ = k <;> by_cases hk' : k₀ = k' <;>
      simp_all [lookupA, upsertA, Ne.symm h]

/-- `state.StorageOverride`. -/
structure StorageOverride where
  Key : Hash
  Value : Hash
deriving Repr, DecidableEq

/-- `state.Override`. -/
structure Override where
  ContractAddress : Addr
  Storage : List StorageOverride
deriving Repr, DecidableEq

/-- `state.StorageDiff` (jackchuma/state-diff revision, with the `isSet` flag). -/
structure StorageDiff where
  Key : Hash
  ValueBefore : Hash
  ValueAfter : Hash
  Preimage : String
  isSet : Bool
deriving Repr, DecidableEq

/-- `state.StateDiff`; `BalanceBefore`/`BalanceAfter` are `*uint256.Int`
pointers, modelled as heap indices (see the file header). -/
structure StateDiff where
  Address : Addr
  BalanceBefore : Option Nat
  BalanceAfter : Option Nat
  NonceSeen : Bool
  NonceBefore : Nat
  NonceAfter : Nat
  StorageDiffs : List (Hash × StorageDiff)
deriving Repr, DecidableEq

/-- The remote RPC view (balance/code/storage/nonce at the pinned block);
`none` models a failed fetch. -/
structure Remote where
  storage : Addr → Hash → Option Hash
  balance : Addr → Option Nat
  nonce : Addr → Option Nat
  code : Addr → Option (List Nat)

/-- `state.CachingStateDB`. -/
structure CachingStateDB where
  remote : Remote
  heap : List Nat
  storageCache : List ((Addr × Hash) × Hash)
  balanceCache : List (Addr × Nat)
  nonceCache : List (Addr × Nat)
  codeCache : List (Addr × List Nat)
  diffs : List (Addr × StateDiff)
  preimages : List (Hash × String)
  Overrides : List Override

/-- `state.NewCachingStateDB`: fresh store over a remote view. -/
def initialDB (r : Remote) : CachingStateDB :=
  { remote := r, heap := [], storageCache := [], balanceCache := [], nonceCache := [],
    codeCache := [], diffs := [], preimages := [], Overrides := [] }

/-- `state.NewStateDiff`. -/
def NewStateDiff (a : Addr) : StateDiff :=
  { Address := a, BalanceBefore := none, BalanceAfter := none, NonceSeen := false,
    NonceBefore := 0, NonceAfter := 0, StorageDiffs := [] }

/-- `CachingStateDB.getStateDiff`. -/
def getStateDiffD (db : CachingStateDB) (a : Addr) : StateDiff :=
  (lookupA db.diffs a).getD (NewStateDiff a)

/-- `StateDiff.getStorageDiff`: Go zero value for the missing fields. -/
def getStorageDiffD (sd : StateDiff) (k : Hash) : StorageDiff :=
  (lookupA sd.StorageDiffs k).getD
    { Key := k, ValueBefore := zeroHash, ValueAfter := zeroHash, Preimage := "", isSet := false }

/-- Allocate a fresh `uint256.Int` cell (Go `new(uint256.Int)` /
`uint256.NewInt`), returning its pointer. -/
def alloc (db : CachingStateDB) (v : Nat) : Nat × CachingStateDB :=
  (db.heap.length, { db with heap := db.heap ++ [v] })

/-- Dereference a `*uint256.Int`. -/
def deref (db : CachingStateDB) (p : Nat) : Nat := db.heap.getD p 0

/-- In-place mutation of a `*uint256.Int` (`z.Add`/`z.Sub` target). -/
def heapSet (db : CachingStateDB) (p v : Nat) : CachingStateDB :=
  { db with heap := db.heap.set p v }

/-- `CachingStateDB.GetState`: cache hit, else remote fetch that populates the
cache; a failed fetch returns the zero hash without caching. -/
def GetState (db : CachingStateDB) (a : Addr) (k : Hash) : Hash × CachingStateDB :=
  match lookupA db.storageCache (a, k) with
  | some v => (v, db)
  | none =>
    match db.remote.storage a k with
    | none => (zeroHash, db)
    | some v => (v, { db with storageCache := upsertA db.storageCache (a, k) v })

/-- `CachingStateDB.GetBalance`: returns a `*uint256.Int` pointer; cache hit
returns the cached pointer, a miss allocates from the remote value and caches
the pointer, and a failed fetch returns a fresh zero cell without caching. -/
def GetBalance (db : CachingStateDB) (a : Addr) : Nat × CachingStateDB :=
  match lookupA db.balanceCache a with
  | some p => (p, db)
  | none =>
    match db.remote.balance a with
    | none => alloc db 0
    | some b =>
      let (p, db') := alloc db (b % W256)
      (p, { db' with balanceCache := upsertA db'.balanceCache a p })

/-- `CachingStateDB.GetNonce`: failed fetch returns zero without caching. -/
def GetNonce (db : CachingStateDB) (a : Addr) : Nat × CachingStateDB :=
  match lookupA db.nonceCache a with
  | some n => (n, db)
  | none =>
    match db.remote.nonce a with
    | none => (0, db)
    | some n => (n, { db with nonceCache := upsertA db.nonceCache a n })

/-- `CachingStateDB.GetCode`: failed fetch returns nil without caching. -/
def GetCode (db : CachingStateDB) (a : Addr) : List Nat × CachingStateDB :=
  match lookupA db.codeCache a with
  | some c => (c, db)
  | none =>
    match db.remote.code a with
    | none => ([], db)
    | some c => (c, { db with codeCache := upsertA db.codeCache a c })

/-- `CachingStateDB.setState` (the private method with the `isOverride`
parameter): reads the current value (caching side effect included), records
`ValueBefore` only when the diff entry is not yet set, always records
`ValueAfter`, stamps the known preimage, and write-through caches the value.
Returns `valueBefore` as the Go function does. -/
def setState (db : CachingStateDB) (a : Addr) (k v : Hash) (isOverride : Bool) :
    Hash × CachingStateDB :=
  let sd := getStateDiffD db a
  let d := getStorageDiffD sd k
  let (vfetched, db₁) := GetState db a k
  let valueBefore := if isOverride then v else vfetched
  let d₁ := if d.isSet then d else { d with ValueBefore := valueBefore, isSet := true }
  let d₂ := { d₁ with ValueAfter := v, Preimage := (lookupA db₁.preimages k).getD "" }
  let sd₁ := { sd with StorageDiffs := upsertA sd.StorageDiffs k d₂ }
  (valueBefore,
    { db₁ with diffs := upsertA db₁.diffs a sd₁,
               storageCache := upsertA db₁.storageCache (a, k) v })

/-- `CachingStateDB.SetState` (the public method). -/
def SetState (db : CachingStateDB) (a : Addr) (k v : Hash) : Hash × CachingStateDB :=
  setState db a k v false

/-- `CachingStateDB.AddBalance`: the returned value is `*balanceBefore`
dereferenced after `BalanceAfter.Add` has mutated its target, so pointer
aliasing between the cached balance and the diff's `BalanceAfter` is
observable. -/
def AddBalance (db : CachingStateDB) (a : Addr) (amt : Nat) : Nat × CachingStateDB :=
  let sd := getStateDiffD db a
  let (pb, db₁) := GetBalance db a
  let sd₁ := if sd.BalanceBefore.isNone then { sd with BalanceBefore := some pb } else sd
  let (pa, db₂) := match sd₁.BalanceAfter with
    | some p => (p, db₁)
    | none => alloc db₁ 0
  let sd₂ := { sd₁ with BalanceAfter := some pa }
  let newVal := (deref db₂ pb + amt) % W256
  let db₃ := heapSet db₂ pa newVal
  (deref db₃ pb,
    { db₃ with diffs := upsertA db₃.diffs a sd₂,
               balanceCache := upsertA db₃.balanceCache a pa })

/-- `CachingStateDB.SubBalance` (wrapping `uint256` subtraction). -/
def SubBalance (db : CachingStateDB) (a : Addr) (amt : Nat) : Nat × CachingStateDB :=
  let sd := getStateDiffD db a
  let (pb, db₁) := GetBalance db a
  let sd₁ := if sd.BalanceBefore.isNone then { sd with BalanceBefore := some pb } else sd
  let (pa, db₂) := match sd₁.BalanceAfter with
    | some p => (p, db₁)
    | none => alloc db₁ 0
  let sd₂ := { sd₁ with BalanceAfter := some pa }
  let newVal := (deref db₂ pb + (W256 - amt % W256)) % W256
  let db₃ := heapSet db₂ pa newVal
  (deref db₃ pb,
    { db₃ with diffs := upsertA db₃.diffs a sd₂,
               balanceCache := upsertA db₃.balanceCache a pa })

/-- `CachingStateDB.SetNonce`. -/
def SetNonce (db : CachingStateDB) (a : Addr) (n : Nat) : CachingStateDB :=
  let sd := getStateDiffD db a
  let (nb, db₁) := GetNonce db a
  let sd₁ := if sd.NonceSeen then sd else { sd with NonceBefore := nb, NonceSeen := true }
  let sd₂ := { sd₁ with NonceAfter := n }
  { db₁ with diffs := upsertA db₁.diffs a sd₂,
             nonceCache := upsertA db₁.nonceCache a n }

/-- `CachingStateDB.AddPreimage` (`common.Bytes2Hex` of the raw bytes; Go map
assignment is last-write-wins). -/
def AddPreimage (db : CachingStateDB) (h : Hash) (p : String) : CachingStateDB :=
  { db with preimages := upsertA db.preimages h p }

/-- `CachingStateDB.GetPreimage`.
Modelled from the spec: the method body is not among the provided source files
(only its call sites in `getSlot` and `AddPreimage` are); per the spec's
Preimage Registry description it is the Go map read `db.preimages[hash]`,
whose missing-key default is the empty string. -/
def GetPreimage (db : CachingStateDB) (h : Hash) : String :=
  (lookupA db.preimages h).getD ""

/-- `CachingStateDB.applyOverrides`: records the override list and performs an
override-seeding write for each storage pair. -/
def applyOverrides (db : CachingStateDB) (ovs : List Override) : CachingStateDB :=
  ovs.foldl
    (fun acc ov =>
      ov.Storage.foldl
        (fun acc' so => (setState acc' ov.ContractAddress so.Key so.Value true).2) acc)
    { db with Overrides := ovs }

/-- `CachingStateDB.SetOverrides`: `json.Unmarshal` of the payload is the
external `encoding/json` collaborator, so the function is parameterised by its
result; a decode error prints and returns, leaving the store untouched. -/
def SetOverrides (db : CachingStateDB) (decoded : Option (List Override)) : CachingStateDB :=
  match decoded with
  | none => db
  | some ovs => applyOverrides db ovs

/-- `CachingStateDB.GetOverrides`. -/
def GetOverrides (db : CachingStateDB) : List Override := db.Overrides

/-- `CachingStateDB.GetStateDiffs` (map values; order irrelevant to every
claim, the renderer sorts). -/
def GetStateDiffs (db : CachingStateDB) : List StateDiff := db.diffs.map Prod.snd

/-- `CachingStateDB.Snapshot` — a no-op returning 0. -/
def Snapshot (db : CachingStateDB) : Int × CachingStateDB := (0, db)

/-- `CachingStateDB.RevertToSnapshot` — a no-op. -/
def RevertToSnapshot (db : CachingStateDB) (_ : Int) : CachingStateDB := db

/-- One state-access operation the execution engine can issue against the
store during a simulation. -/
inductive Op where
  | getStateOp (a : Addr) (k : Hash)
  | getBalanceOp (a : Addr)
  | getNonceOp (a : Addr)
  | getCodeOp (a : Addr)
  | setStateOp (a : Addr) (k v : Hash) (isOverride : Bool)
  | addBalanceOp (a : Addr) (amt : Nat)
  | subBalanceOp (a : Addr) (amt : Nat)
  | setNonceOp (a : Addr) (n : Nat)
  | addPreimageOp (h : Hash) (p : String)
  | snapshotOp
  | revertToSnapshotOp (i : Int)
deriving Repr, DecidableEq

/-- Effect of one operation on the store. -/
def applyOp (db : CachingStateDB) : Op → CachingStateDB
  | .getStateOp a k => (GetState db a k).2
  | .getBalanceOp a => (GetBalance db a).2
  | .getNonceOp a => (GetNonce db a).2
  | .getCodeOp a => (GetCode db a).2
  | .setStateOp a k v io => (setState db a k v io).2
  | .addBalanceOp a amt => (AddBalance db a amt).2
  | .subBalanceOp a amt => (SubBalance db a amt).2
  | .setNonceOp a n => SetNonce db a n
  | .addPreimageOp h p => AddPreimage db h p
  | .snapshotOp => (Snapshot db).2
  | .revertToSnapshotOp i => RevertToSnapshot db i

/-- Execute a sequence of operations. -/
def run (db : CachingStateDB) (ops : List Op) : CachingStateDB :=
  ops.foldl applyOp db

/-- `op` writes storage slot `(a, k)` (plain write or override seeding). -/
def writesSlot (a : Addr) (k : Hash) : Op → Prop
  | .setStateOp a' k' _ _ => a' = a ∧ k' = k
  | _ => False

instance (a : Addr) (k : Hash) (op : Op) : Decidable (writesSlot a k op) := by
  cases op <;> simp [writesSlot] <;> infer_instance

/-- No operation of `ops` writes storage slot `(a, k)`. -/
def noSlotWrite (a : Addr) (k : Hash) (ops : List Op) : Prop :=
  ∀ op ∈ ops, ¬ writesSlot a k op

instance (a : Addr) (k : Hash) (ops : List Op) : Decidable (noSlotWrite a k ops) :=
  List.decidableBAll _ ops

/-! ### Heap (pointer) helper lemmas -/

theorem deref_heapSet_same (db : CachingStateDB) (p v : Nat) (h : p < db.heap.length) :
    deref (heapSet db p v) p = v := by
  simp [deref, heapSet, List.getD, List.getElem?_set_self h]

theorem deref_heapSet_ne (db : CachingStateDB) (p q v : Nat) (h : q ≠ p) :
    deref (heapSet db p v) q = deref db q := by
  simp [deref, heapSet, List.getD, List.getElem?_set_ne (fun hh => h hh.symm)]

theorem alloc_fst (db : CachingStateDB) (v : Nat) : (alloc db v).1 = db.heap.length := rfl

theorem deref_alloc_new (db : CachingStateDB) (v : Nat) :
    deref (alloc db v).2 db.heap.length = v := by
  simp [deref, alloc, List.getD, List.getElem?_append_right]

theorem deref_alloc_old (db : CachingStateDB) (v p : Nat) (h : p < db.heap.length) :
    deref (alloc db v).2 p = deref db p := by
  simp [deref, alloc, List.getD, List.getElem?_append_left h]

theorem getElem_append2_fst {α : Type} (l : List α) (x y : α)
    (h : l.length < (l ++ [x, y]).length) : (l ++ [x, y])[l.length] = x := by
  induction l with
  | nil => rfl
  | cons a t ih => simpa using ih (by simp)

theorem getElem_append2_snd {α : Type} (l : List α) (x y : α)
    (h : l.length + 1 < (l ++ [x, y]).length) : (l ++ [x, y])[l.length + 1] = y := by
  induction l with
  | nil => rfl
  | cons a t ih => simpa using ih (by simp)

/-! ### C7 — return value of `AddBalance`/`SubBalance`

The Go code caches the `*uint256.Int` pointer `stateDiff.BalanceAfter` itself
(`db.cache.Store(getBalanceCacheKey(addr), stateDiff.BalanceAfter)`), so from
the second balance write for an address onward `balanceBefore` (the cache hit)
aliases `BalanceAfter`, and `return *balanceBefore`, evaluated after
`BalanceAfter.Add/Sub` has mutated the shared cell, yields the NEW balance. -/

/-- A remote view whose every account has balance 5, for concrete balance
scenarios. -/
def remoteC7 : Remote :=
  { storage := fun _ _ => none, balance := fun _ => some 5, nonce := fun _ => none,
    code := fun _ => none }

/-- The store after one `AddBalance(0xaa, 1)` from fresh: balance cache and
diff `BalanceAfter` share pointer 1, whose cell holds 6. -/
def db1C7 : CachingStateDB := (AddBalance (initialDB remoteC7) "0xaa" 1).2

/-- C7 counterexample: after `AddBalance(0xaa, 1)` on a fresh store with
remote balance 5, the balance is 6; the claim says a further
`AddBalance(0xaa, 1)` returns the previous balance 6, but the code returns 7
(the new balance) because the cached balance pointer aliases the diff's
`BalanceAfter` cell that `Add` just mutated. -/
theorem C7_counterexample :
    deref db1C7 (GetBalance db1C7 "0xaa").1 = 6
    ∧ (AddBalance db1C7 "0xaa" 1).1 = 7 := by
  constructor <;> rfl

/-- C7 (amended): on the FIRST balance write for an address (nothing cached,
no `BalanceBefore`/`BalanceAfter` recorded yet) `AddBalance` and `SubBalance`
return the previous balance, record `BalanceBefore`, and store the new balance
in both the cache and the diff; on every LATER balance write (the cached
pointer aliases the diff's `BalanceAfter`) they return the NEW balance instead,
while still keeping `BalanceBefore` untouched once set and storing the new
balance in cache and diff. -/
theorem C7_theorem (db : CachingStateDB) (a : Addr) (amt p : Nat) :
    (lookupA db.balanceCache a = none →
     (getStateDiffD db a).BalanceAfter = none →
     (getStateDiffD db a).BalanceBefore = none →
      (AddBalance db a amt).1 = ((db.remote.balance a).getD 0) % W256
      ∧ (SubBalance db a amt).1 = ((db.remote.balance a).getD 0) % W256
      ∧ (getStateDiffD (AddBalance db a amt).2 a).BalanceBefore = some db.heap.length
      ∧ (getStateDiffD (AddBalance db a amt).2 a).BalanceAfter = some (db.heap.length + 1)
      ∧ lookupA (AddBalance db a amt).2.balanceCache a = some (db.heap.length + 1)
      ∧ deref (AddBalance db a amt).2 db.heap.length = ((db.remote.balance a).getD 0) % W256
      ∧ deref (AddBalance db a amt).2 (db.heap.length + 1)
          = (((db.remote.balance a).getD 0) % W256 + amt) % W256)
    ∧
    (lookupA db.balanceCache a = some p →
     (getStateDiffD db a).BalanceAfter = some p →
     p < db.heap.length →
      (AddBalance db a amt).1 = (deref db p + amt) % W256
      ∧ (SubBalance db a amt).1 = (deref db p + (W256 - amt % W256)) % W256
      ∧ (getStateDiffD (AddBalance db a amt).2 a).BalanceBefore
          = some ((getStateDiffD db a).BalanceBefore.getD p)
      ∧ (getStateDiffD (AddBalance db a amt).2 a).BalanceAfter = some p
      ∧ lookupA (AddBalance db a amt).2.balanceCache a = some p
      ∧ deref (AddBalance db a amt).2 p = (deref db p + amt) % W256) := by
  constructor
  · intro h1 h2 h3
    simp only [getStateDiffD] at h2 h3
    rcases hrb : db.remote.balance a with _ | b <;>
      simp [AddBalance, SubBalance, GetBalance, getStateDiffD, h1, h2, h3, hrb, alloc,
        heapSet, deref, List.getD, getElem_append2_fst, getElem_append2_snd,
        lookupA_upsertA_self, Nat.mod_add_mod]
  · intro h1 h2 hp
    simp only [getStateDiffD] at h2
    rcases hbb : ((lookupA db.diffs a).getD (NewStateDiff a)).BalanceBefore with _ | q <;>
      simp [AddBalance, SubBalance, GetBalance, getStateDiffD, h1, h2, hbb, heapSet, deref,
        List.getD, List.getElem?_set_self hp, lookupA_upsertA_self, Nat.mod_add_mod]

/-- Witness for `C7_theorem`: the later-write case instantiated after one
concrete `AddBalance` (cached pointer 1, cell value 6, heap length 2). -/
theorem C7_theorem_witness :
    (lookupA db1C7.balanceCache "0xaa" = some 1
     ∧ (getStateDiffD db1C7 "0xaa").BalanceAfter = some 1
     ∧ 1 < db1C7.heap.length)
    ∧ (AddBalance db1C7 "0xaa" 1).1 = (deref db1C7 1 + 1) % W256 :=
  ⟨⟨rfl, rfl, by decide⟩,
    (((C7_theorem db1C7 "0xaa" 1 1).2) rfl rfl (by decide)).1⟩

end StateDiffRepo

namespace StateDiffRepo

/-- The storage diff entry recorded for `(a, k)`, if any. -/
def storageEntry (db : CachingStateDB) (a : Addr) (k : Hash) : Option StorageDiff :=
  (lookupA db.diffs a).bind fun sd => lookupA sd.StorageDiffs k

/-- The storage value any read of `(a, k)` observes before the first write:
the remote value, or the zero hash when the fetch fails. -/
def observedStorage (db : CachingStateDB) (a : Addr) (k : Hash) : Hash :=
  (db.remote.storage a k).getD zeroHash

theorem remote_applyOp (db : CachingStateDB) (op : Op) :
    (applyOp db op).remote = db.remote := by
  cases op <;>
    simp [applyOp, GetState, GetBalance, GetNonce, GetCode, setState, AddBalance,
      SubBalance, SetNonce, AddPreimage, Snapshot, RevertToSnapshot, alloc, heapSet] <;>
    (repeat' split) <;> rfl

theorem GetState_snd_diffs (db : CachingStateDB) (a : Addr) (k : Hash) :
    (GetState db a k).2.diffs = db.diffs := by
  unfold GetState; (repeat' split) <;> rfl

theorem alloc_snd_diffs (db : CachingStateDB) (v : Nat) : (alloc db v).2.diffs = db.diffs := rfl

theorem GetBalance_snd_diffs (db : CachingStateDB) (a : Addr) :
    (GetBalance db a).2.diffs = db.diffs := by
  unfold GetBalance alloc
  (repeat' split) <;> first | rfl | (rename_i heq; cases heq; rfl)

theorem GetNonce_snd_diffs (db : CachingStateDB) (a : Addr) :
    (GetNonce db a).2.diffs = db.diffs := by
  unfold GetNonce; (repeat' split) <;> rfl

theorem GetCode_snd_diffs (db : CachingStateDB) (a : Addr) :
    (GetCode db a).2.diffs = db.diffs := by
  unfold GetCode; (repeat' split) <;> rfl

theorem GetBalance_snd_storageCache (db : CachingStateDB) (a : Addr) :
    (GetBalance db a).2.storageCache = db.storageCache := by
  unfold GetBalance alloc
  (repeat' split) <;> first | rfl | (rename_i heq; cases heq; rfl)

theorem GetNonce_snd_storageCache (db : CachingStateDB) (a : Addr) :
    (GetNonce db a).2.storageCache = db.storageCache := by
  unfold GetNonce; (repeat' split) <;> rfl

theorem GetCode_snd_storageCache (db : CachingStateDB) (a : Addr) :
    (GetCode db a).2.storageCache = db.storageCache := by
  unfold GetCode; (repeat' split) <;> rfl

theorem GetState_snd_remote (db : CachingStateDB) (a : Addr) (k : Hash) :
    (GetState db a k).2.remote = db.remote := by
  unfold GetState; (repeat' split) <;> rfl

theorem GetState_snd_preimages (db : CachingStateDB) (a : Addr) (k : Hash) :
    (GetState db a k).2.preimages = db.preimages := by
  unfold GetState; (repeat' split) <;> rfl

/-- A `StateDiff` update performed by `SetNonce`, `AddBalance` and `SubBalance`
never touches the `StorageDiffs` field of the existing diff. -/
theorem SetNonce_storageEntry (db : CachingStateDB) (a : Addr) (k : Hash) (a' : Addr) (n : Nat) :
    storageEntry (SetNonce db a' n) a k = storageEntry db a k := by
  by_cases ha : a' = a
  · subst ha
    simp only [SetNonce, storageEntry, GetNonce_snd_diffs, lookupA_upsertA_self, getStateDiffD]
    rcases hd : lookupA db.diffs a' with _ | sd <;> split <;> simp [NewStateDiff, lookupA]
  · simp only [SetNonce, storageEntry, GetNonce_snd_diffs, lookupA_upsertA_ne _ _ _ _ (Ne.symm ha)]

theorem AddBalance_storageEntry (db : CachingStateDB) (a : Addr) (k : Hash) (a' : Addr) (amt : Nat) :
    storageEntry (AddBalance db a' amt).2 a k = storageEntry db a k := by
  by_cases ha : a' = a
  · subst ha
    simp only [AddBalance, storageEntry, heapSet, GetBalance_snd_diffs, getStateDiffD]
    rcases hd : lookupA db.diffs a' with _ | sd <;>
      (repeat' split) <;> simp_all [lookupA_upsertA_self, NewStateDiff, lookupA]
  · simp only [AddBalance, storageEntry, heapSet, getStateDiffD]
    (repeat' split) <;>
      simp_all [GetBalance_snd_diffs, alloc_snd_diffs, lookupA_upsertA_ne _ _ _ _ (Ne.symm ha)]

theorem SubBalance_storageEntry (db : CachingStateDB) (a : Addr) (k : Hash) (a' : Addr) (amt : Nat) :
    storageEntry (SubBalance db a' amt).2 a k = storageEntry db a k := by
  by_cases ha : a' = a
  · subst ha
    simp only [SubBalance, storageEntry, heapSet, GetBalance_snd_diffs, getStateDiffD]
    rcases hd : lookupA db.diffs a' with _ | sd <;>
      (repeat' split) <;> simp_all [lookupA_upsertA_self, NewStateDiff, lookupA]
  · simp only [SubBalance, storageEntry, heapSet, getStateDiffD]
    (repeat' split) <;>
      simp_all [GetBalance_snd_diffs, alloc_snd_diffs, lookupA_upsertA_ne _ _ _ _ (Ne.symm ha)]

theorem storageEntry_applyOp_of_not_writes (db : CachingStateDB) (a : Addr) (k : Hash)
    (op : Op) (h : ¬ writesSlot a k op) :
    storageEntry (applyOp db op) a k = storageEntry db a k := by
  cases op with
  | getStateOp a' k' => simp [applyOp, storageEntry, GetState_snd_diffs]
  | getBalanceOp a' => simp [applyOp, storageEntry, GetBalance_snd_diffs]
  | getNonceOp a' => simp [applyOp, storageEntry, GetNonce_snd_diffs]
  | getCodeOp a' => simp [applyOp, storageEntry, GetCode_snd_diffs]
  | addPreimageOp h' p' => simp [applyOp, AddPreimage, storageEntry]
  | snapshotOp => rfl
  | revertToSnapshotOp i => rfl
  | setNonceOp a' n => exact SetNonce_storageEntry db a k a' n
  | addBalanceOp a' amt => exact AddBalance_storageEntry db a k a' amt
  | subBalanceOp a' amt => exact SubBalance_storageEntry db a k a' amt
  | setStateOp a' k' v' io =>
    simp only [writesSlot] at h
    by_cases ha : a' = a
    · subst ha
      have hk : k' ≠ k := fun hh => h ⟨rfl, hh⟩
      simp only [applyOp, setState, storageEntry, GetState_snd_diffs,
        GetState_snd_preimages, lookupA_upsertA_self, getStateDiffD]
      rcases hd : lookupA db.diffs a' with _ | sd <;>
        simp [NewStateDiff, lookupA_upsertA_ne _ _ _ _ (Ne.symm hk), lookupA, hk]
    · simp only [applyOp, setState, storageEntry, GetState_snd_diffs,
        lookupA_upsertA_ne _ _ _ _ (Ne.symm ha)]

end StateDiffRepo

namespace StateDiffRepo

theorem lookupA_mem {α β : Type} [DecidableEq α] {l : List (α × β)} {x : α} {y : β}
    (h : lookupA l x = some y) : (x, y) ∈ l := by
  induction l with
  | nil => simp [lookupA] at h
  | cons hd t ih =>
    obtain ⟨k', v'⟩ := hd
    by_cases hk : k' = x <;> simp_all [lookupA]

/-- After the FIRST write to `(a, k)`, the diff entry is created with
`ValueBefore` equal to the observed value (or the override literal). -/
theorem storageEntry_setState_first (db : CachingStateDB) (a : Addr) (k v : Hash) (io : Bool)
    (h : storageEntry db a k = none) :
    storageEntry (setState db a k v io).2 a k =
      some { Key := k, ValueBefore := if io then v else (GetState db a k).1,
             ValueAfter := v, Preimage := (lookupA db.preimages k).getD "", isSet := true } := by
  unfold storageEntry at h ⊢
  rcases hd : lookupA db.diffs a with _ | sd
  · simp only [setState, getStateDiffD, getStorageDiffD, hd, GetState_snd_diffs,
      GetState_snd_preimages, Option.getD_none, lookupA_upsertA_self]
    simp [NewStateDiff, lookupA, lookupA_upsertA_self]
  · rw [hd] at h
    simp only [Option.some_bind] at h
    simp only [setState, getStateDiffD, getStorageDiffD, hd, GetState_snd_diffs,
      GetState_snd_preimages, Option.getD_some, lookupA_upsertA_self, h]
    simp [lookupA_upsertA_self]

/-- A LATER write to `(a, k)` (entry already set) only updates `ValueAfter`
and the preimage stamp. -/
theorem storageEntry_setState_later (db : CachingStateDB) (a : Addr) (k v : Hash) (io : Bool)
    (d : StorageDiff) (h : storageEntry db a k = some d) (hset : d.isSet = true) :
    storageEntry (setState db a k v io).2 a k =
      some { d with ValueAfter := v, Preimage := (lookupA db.preimages k).getD "" } := by
  unfold storageEntry at h ⊢
  rcases hd : lookupA db.diffs a with _ | sd
  · simp [hd] at h
  · rw [hd] at h
    simp only [Option.some_bind] at h
    simp only [setState, getStateDiffD, getStorageDiffD, hd, GetState_snd_diffs,
      GetState_snd_preimages, Option.getD_some, lookupA_upsertA_self, h, hset]
    simp [lookupA_upsertA_self, hset]

/-- Once the entry for `(a, k)` is set, no operation changes its
`ValueBefore` (or unsets it). -/
theorem storageEntry_stable_applyOp (db : CachingStateDB) (a : Addr) (k : Hash) (op : Op)
    (d : StorageDiff) (h : storageEntry db a k = some d) (hset : d.isSet = true) :
    ∃ d', storageEntry (applyOp db op) a k = some d'
      ∧ d'.isSet = true ∧ d'.ValueBefore = d.ValueBefore := by
  by_cases hw : writesSlot a k op
  · rcases op with _ | _ | _ | _ | ⟨a', k', v', io⟩ | _ | _ | _ | _ | _ | _ <;>
      simp [writesSlot] at hw
    obtain ⟨rfl, rfl⟩ := hw
    exact ⟨_, storageEntry_setState_later db a' k' v' io d h hset, hset, rfl⟩
  · exact ⟨d, by rw [storageEntry_applyOp_of_not_writes db a k op hw]; exact h, hset, rfl⟩

theorem run_nil (db : CachingStateDB) : run db [] = db := rfl

theorem run_cons (db : CachingStateDB) (op : Op) (ops : List Op) :
    run db (op :: ops) = run (applyOp db op) ops := rfl

theorem run_append (db : CachingStateDB) (p q : List Op) :
    run db (p ++ q) = run (run db p) q := List.foldl_append _ _ _ _

theorem storageEntry_stable_run (db : CachingStateDB) (a : Addr) (k : Hash) (ops : List Op)
    (d : StorageDiff) (h : storageEntry db a k = some d) (hset : d.isSet = true) :
    ∃ d', storageEntry (run db ops) a k = some d'
      ∧ d'.isSet = true ∧ d'.ValueBefore = d.ValueBefore := by
  induction ops generalizing db d with
  | nil => exact ⟨d, h, hset, rfl⟩
  | cons op t ih =>
    obtain ⟨d₁, h₁, hs₁, hv₁⟩ := storageEntry_stable_applyOp db a k op d h hset
    obtain ⟨d₂, h₂, hs₂, hv₂⟩ := ih (applyOp db op) d₁ h₁ hs₁
    exact ⟨d₂, by rwa [run_cons], hs₂, hv₂ ▸ hv₁ ▸ rfl⟩

end StateDiffRepo

namespace StateDiffRepo

/-- Invariant: before the first write to `(a, k)`, the storage cache can only
hold the remote-observed value for `(a, k)`. -/
def storageCacheOK (db : CachingStateDB) (a : Addr) (k : Hash) : Prop :=
  ∀ w, lookupA db.storageCache (a, k) = some w → w = observedStorage db a k

/-- Any read of `(a, k)` sees the remote-observed value while the cache
invariant holds. -/
theorem GetState_fst_of_cacheOK (db : CachingStateDB) (a : Addr) (k : Hash)
    (hc : storageCacheOK db a k) : (GetState db a k).1 = observedStorage db a k := by
  unfold GetState
  rcases hl : lookupA db.storageCache (a, k) with _ | w
  · rcases hr : db.remote.storage a k with _ | v <;>
      simp [hl, hr, observedStorage]
  · simpa [hl] using hc w hl

theorem AddBalance_snd_storageCache (db : CachingStateDB) (a : Addr) (amt : Nat) :
    (AddBalance db a amt).2.storageCache = db.storageCache := by
  unfold AddBalance heapSet alloc
  split
  rename_i p db' heq
  have hsc : db'.storageCache = db.storageCache := by
    rw [← GetBalance_snd_storageCache db a, heq]
  dsimp only
  split <;> simp [hsc]

theorem SubBalance_snd_storageCache (db : CachingStateDB) (a : Addr) (amt : Nat) :
    (SubBalance db a amt).2.storageCache = db.storageCache := by
  unfold SubBalance heapSet alloc
  split
  rename_i p db' heq
  have hsc : db'.storageCache = db.storageCache := by
    rw [← GetBalance_snd_storageCache db a, heq]
  dsimp only
  split <;> simp [hsc]

theorem storageCacheOK_applyOp (db : CachingStateDB) (a : Addr) (k : Hash) (op : Op)
    (hw : ¬ writesSlot a k op) (hc : storageCacheOK db a k) :
    storageCacheOK (applyOp db op) a k := by
  intro w hl
  unfold observedStorage
  rw [remote_applyOp db op]
  have hc' : ∀ w, lookupA db.storageCache (a, k) = some w →
      w = (db.remote.storage a k).getD zeroHash := hc
  cases op with
  | getStateOp a' k' =>
    simp only [applyOp] at hl
    unfold GetState at hl
    rcases hcl : lookupA db.storageCache (a', k') with _ | w' <;> rw [hcl] at hl
    · rcases hr : db.remote.storage a' k' with _ | v <;> rw [hr] at hl
      · exact hc' w hl
      · by_cases hak : (a, k) = (a', k')
        · injection hak with ha hk
          subst ha; subst hk
          simp only [lookupA_upsertA_self, Option.some.injEq] at hl
          simp [hr, ← hl]
        · simp only at hl
          rw [lookupA_upsertA_ne _ _ _ _ hak] at hl
          exact hc' w hl
    · exact hc' w hl
  | getBalanceOp a' =>
    rw [show (applyOp db (Op.getBalanceOp a')).storageCache = db.storageCache from
      GetBalance_snd_storageCache db a'] at hl
    exact hc' w hl
  | getNonceOp a' =>
    rw [show (applyOp db (Op.getNonceOp a')).storageCache = db.storageCache from
      GetNonce_snd_storageCache db a'] at hl
    exact hc' w hl
  | getCodeOp a' =>
    rw [show (applyOp db (Op.getCodeOp a')).storageCache = db.storageCache from
      GetCode_snd_storageCache db a'] at hl
    exact hc' w hl
  | addBalanceOp a' amt =>
    rw [show (applyOp db (Op.addBalanceOp a' amt)).storageCache = db.storageCache from
      AddBalance_snd_storageCache db a' amt] at hl
    exact hc' w hl
  | subBalanceOp a' amt =>
    rw [show (applyOp db (Op.subBalanceOp a' amt)).storageCache = db.storageCache from
      SubBalance_snd_storageCache db a' amt] at hl
    exact hc' w hl
  | setNonceOp a' n =>
    rw [show (applyOp db (Op.setNonceOp a' n)).storageCache = db.storageCache by
      simp only [applyOp, SetNonce]
      exact GetNonce_snd_storageCache db a'] at hl
    exact hc' w hl
  | addPreimageOp h' p' =>
    simp only [applyOp, AddPreimage] at hl
    exact hc' w hl
  | snapshotOp => exact hc' w hl
  | revertToSnapshotOp i => exact hc' w hl
  | setStateOp a' k' v' io =>
    have hak : (a, k) ≠ (a', k') := by
      intro hh
      injection hh with h1 h2
      exact hw (by simp [writesSlot, ← h1, ← h2])
    simp only [applyOp, setState] at hl
    rw [lookupA_upsertA_ne _ _ _ _ hak] at hl
    unfold GetState at hl
    rcases hcl : lookupA db.storageCache (a', k') with _ | w' <;> rw [hcl] at hl
    · rcases hr : db.remote.storage a' k' with _ | v <;> rw [hr] at hl
      · exact hc' w hl
      · simp only at hl
        rw [lookupA_upsertA_ne _ _ _ _ hak] at hl
        exact hc' w hl
    · exact hc' w hl

end StateDiffRepo

namespace StateDiffRepo

theorem remote_run (db : CachingStateDB) (ops : List Op) : (run db ops).remote = db.remote := by
  induction ops generalizing db with
  | nil => rfl
  | cons op t ih => rw [run_cons, ih, remote_applyOp]

theorem storageCacheOK_run (db : CachingStateDB) (a : Addr) (k : Hash) (ops : List Op)
    (h : noSlotWrite a k ops) (hc : storageCacheOK db a k) :
    storageCacheOK (run db ops) a k := by
  induction ops generalizing db with
  | nil => exact hc
  | cons op t ih =>
    rw [run_cons]
    exact ih (applyOp db op)
      (fun o ho => h o (List.mem_cons_of_mem _ ho))
      (storageCacheOK_applyOp db a k op (h op (List.mem_cons_self _ _)) hc)

theorem storageEntry_run_of_no_writes (db : CachingStateDB) (a : Addr) (k : Hash)
    (ops : List Op) (h : noSlotWrite a k ops) :
    storageEntry (run db ops) a k = storageEntry db a k := by
  induction ops generalizing db with
  | nil => rfl
  | cons op t ih =>
    rw [run_cons, ih (applyOp db op) (fun o ho => h o (List.mem_cons_of_mem _ ho)),
      storageEntry_applyOp_of_not_writes db a k op (h op (List.mem_cons_self _ _))]

/-- C1: over any simulation prefix `p` with no write to `(a, k)`, no diff
entry for `(a, k)` exists yet; the first write creates it with `ValueBefore`
equal to the value observed at any first read-or-write (the remote value at
the pinned block, zero on fetch failure — or the override literal for an
override-seeding write), and no later operation sequence `q` changes
`ValueBefore` or unsets it. -/
theorem C1_theorem (r : Remote) (p q : List Op) (a : Addr) (k v : Hash) (io : Bool)
    (hp : noSlotWrite a k p) :
    storageEntry (run (initialDB r) p) a k = none
    ∧ ∃ d, storageEntry (run (initialDB r) (p ++ Op.setStateOp a k v io :: q)) a k = some d
        ∧ d.isSet = true
        ∧ d.ValueBefore = (if io then v else (r.storage a k).getD zeroHash) := by
  set db₁ := run (initialDB r) p with hdb₁
  have hc0 : storageCacheOK (initialDB r) a k := by
    intro w hw
    simp [initialDB, lookupA] at hw
  have hc1 : storageCacheOK db₁ a k := storageCacheOK_run _ a k p hp hc0
  have he1 : storageEntry db₁ a k = none := by
    rw [hdb₁, storageEntry_run_of_no_writes _ a k p hp]
    simp [storageEntry, initialDB, lookupA]
  have hrem : db₁.remote = r := remote_run (initialDB r) p
  have hfirst := storageEntry_setState_first db₁ a k v io he1
  rw [GetState_fst_of_cacheOK db₁ a k hc1] at hfirst
  have hobs : observedStorage db₁ a k = (r.storage a k).getD zeroHash := by
    unfold observedStorage
    rw [hrem]
  rw [hobs] at hfirst
  refine ⟨he1, ?_⟩
  have hrun : run (initialDB r) (p ++ Op.setStateOp a k v io :: q)
      = run (applyOp db₁ (Op.setStateOp a k v io)) q := by
    rw [run_append, hdb₁]
    rfl
  obtain ⟨d', hd', hs', hv'⟩ :=
    storageEntry_stable_run (applyOp db₁ (Op.setStateOp a k v io)) a k q _ hfirst rfl
  refine ⟨d', by rwa [hrun], hs', by rw [hv']⟩

end StateDiffRepo

namespace StateDiffRepo

/-- Remote view for concrete storage scenarios: every slot reads `0x11`. -/
def remoteC1 : Remote :=
  { storage := fun _ _ => some "0x11", balance := fun _ => none, nonce := fun _ => none,
    code := fun _ => none }

theorem C1_theorem_witness :
    noSlotWrite "0xa" "0x1" [Op.getStateOp "0xa" "0x1"]
    ∧ (storageEntry (run (initialDB remoteC1) [Op.getStateOp "0xa" "0x1"]) "0xa" "0x1" = none
       ∧ ∃ d, storageEntry (run (initialDB remoteC1)
             ([Op.getStateOp "0xa" "0x1"] ++ Op.setStateOp "0xa" "0x1" "0x22" false
                :: [Op.setStateOp "0xa" "0x1" "0x33" false])) "0xa" "0x1" = some d
           ∧ d.isSet = true
           ∧ d.ValueBefore
               = (if false then "0x22" else (remoteC1.storage "0xa" "0x1").getD zeroHash)) :=
  ⟨by decide,
    C1_theorem remoteC1 [Op.getStateOp "0xa" "0x1"] [Op.setStateOp "0xa" "0x1" "0x33" false]
      "0xa" "0x1" "0x22" false (by decide)⟩

theorem storageEntry_setState_isSome (db : CachingStateDB) (a : Addr) (k v : Hash) (io : Bool) :
    (storageEntry (setState db a k v io).2 a k).isSome := by
  simp [setState, storageEntry, lookupA_upsertA_self]

theorem storageEntry_isSome_applyOp (db : CachingStateDB) (a : Addr) (k : Hash) (op : Op)
    (h : (storageEntry db a k).isSome) : (storageEntry (applyOp db op) a k).isSome := by
  by_cases hw : writesSlot a k op
  · rcases op with _ | _ | _ | _ | ⟨a', k', v', io⟩ | _ | _ | _ | _ | _ | _ <;>
      simp [writesSlot] at hw
    obtain ⟨rfl, rfl⟩ := hw
    exact storageEntry_setState_isSome db a' k' v' io
  · rw [storageEntry_applyOp_of_not_writes db a k op hw]
    exact h

theorem storageEntry_isSome_run (db : CachingStateDB) (a : Addr) (k : Hash) (ops : List Op)
    (h : (storageEntry db a k).isSome) : (storageEntry (run db ops) a k).isSome := by
  induction ops generalizing db with
  | nil => exact h
  | cons op t ih => exact run_cons db op t ▸ ih _ (storageEntry_isSome_applyOp db a k op h)

/-- Every value stored in the diff map carries the address it is keyed by. -/
def diffAddrOK (db : CachingStateDB) : Prop :=
  ∀ x sd, lookupA db.diffs x = some sd → sd.Address = x

theorem diffAddrOK_upsert {l : List (Addr × StateDiff)} {a' : Addr} {sd : StateDiff}
    (h : ∀ x sd', lookupA l x = some sd' → sd'.Address = x) (hsd : sd.Address = a') :
    ∀ x sd', lookupA (upsertA l a' sd) x = some sd' → sd'.Address = x := by
  intro x sd' hx
  by_cases hxa : x = a'
  · subst hxa
    rw [lookupA_upsertA_self] at hx
    cases hx
    exact hsd
  · rw [lookupA_upsertA_ne _ _ _ _ hxa] at hx
    exact h x sd' hx

theorem getStateDiffD_Address (db : CachingStateDB) (h : diffAddrOK db) (a : Addr) :
    (getStateDiffD db a).Address = a := by
  unfold getStateDiffD
  rcases hl : lookupA db.diffs a with _ | sd
  · simp [NewStateDiff]
  · simpa using h a sd hl

theorem lookupA_upsertA_elim {α β : Type} [DecidableEq α] {l : List (α × β)} {ka x : α}
    {v y : β} (h : lookupA (upsertA l ka v) x = some y) :
    (x = ka ∧ y = v) ∨ lookupA l x = some y := by
  by_cases hx : x = ka
  · subst hx
    rw [lookupA_upsertA_self] at h
    injection h with h
    exact Or.inl ⟨rfl, h.symm⟩
  · rw [lookupA_upsertA_ne _ _ _ _ hx] at h
    exact Or.inr h

theorem AddBalance_addrOK (db : CachingStateDB) (a : Addr) (amt : Nat) (h : diffAddrOK db) :
    diffAddrOK (AddBalance db a amt).2 := by
  intro x sd' hx
  unfold AddBalance heapSet alloc at hx
  split at hx
  rename_i p db' heq
  have hd : db'.diffs = db.diffs := by rw [← GetBalance_snd_diffs db a, heq]
  dsimp only at hx
  split at hx <;>
  · rw [hd] at hx
    rcases lookupA_upsertA_elim hx with ⟨rfl, rfl⟩ | hold
    · show _ = x
      have : (getStateDiffD db x).Address = x := getStateDiffD_Address db h x
      dsimp only
      split <;> simp_all
    · exact h x sd' hold

theorem SubBalance_addrOK (db : CachingStateDB) (a : Addr) (amt : Nat) (h : diffAddrOK db) :
    diffAddrOK (SubBalance db a amt).2 := by
  intro x sd' hx
  unfold SubBalance heapSet alloc at hx
  split at hx
  rename_i p db' heq
  have hd : db'.diffs = db.diffs := by rw [← GetBalance_snd_diffs db a, heq]
  dsimp only at hx
  split at hx <;>
  · rw [hd] at hx
    rcases lookupA_upsertA_elim hx with ⟨rfl, rfl⟩ | hold
    · show _ = x
      have : (getStateDiffD db x).Address = x := getStateDiffD_Address db h x
      dsimp only
      split <;> simp_all
    · exact h x sd' hold

theorem SetNonce_addrOK (db : CachingStateDB) (a : Addr) (n : Nat) (h : diffAddrOK db) :
    diffAddrOK (SetNonce db a n) := by
  intro x sd' hx
  unfold SetNonce at hx
  split at hx
  rename_i nb db' heq
  have hd : db'.diffs = db.diffs := by rw [← GetNonce_snd_diffs db a, heq]
  dsimp only at hx
  rw [hd] at hx
  rcases lookupA_upsertA_elim hx with ⟨rfl, rfl⟩ | hold
  · show _ = x
    have : (getStateDiffD db x).Address = x := getStateDiffD_Address db h x
    dsimp only
    split <;> simp_all
  · exact h x sd' hold

theorem setState_addrOK (db : CachingStateDB) (a : Addr) (k v : Hash) (io : Bool)
    (h : diffAddrOK db) : diffAddrOK (setState db a k v io).2 := by
  intro x sd' hx
  unfold setState at hx
  split at hx
  rename_i vf db' heq
  have hd : db'.diffs = db.diffs := by rw [← GetState_snd_diffs db a k, heq]
  dsimp only at hx
  rw [hd] at hx
  rcases lookupA_upsertA_elim hx with ⟨rfl, rfl⟩ | hold
  · exact getStateDiffD_Address db h x
  · exact h x sd' hold

theorem diffAddrOK_applyOp (db : CachingStateDB) (op : Op) (h : diffAddrOK db) :
    diffAddrOK (applyOp db op) := by
  cases op with
  | getStateOp a' k' =>
    intro x sd hx
    have hdq : (applyOp db (Op.getStateOp a' k')).diffs = db.diffs := GetState_snd_diffs db a' k'
    rw [hdq] at hx; exact h x sd hx
  | getBalanceOp a' =>
    intro x sd hx
    have hdq : (applyOp db (Op.getBalanceOp a')).diffs = db.diffs := GetBalance_snd_diffs db a'
    rw [hdq] at hx; exact h x sd hx
  | getNonceOp a' =>
    intro x sd hx
    have hdq : (applyOp db (Op.getNonceOp a')).diffs = db.diffs := GetNonce_snd_diffs db a'
    rw [hdq] at hx; exact h x sd hx
  | getCodeOp a' =>
    intro x sd hx
    have hdq : (applyOp db (Op.getCodeOp a')).diffs = db.diffs := GetCode_snd_diffs db a'
    rw [hdq] at hx; exact h x sd hx
  | addPreimageOp h' p' => intro x sd hx; exact h x sd hx
  | snapshotOp => exact h
  | revertToSnapshotOp i => exact h
  | setNonceOp a' n => exact SetNonce_addrOK db a' n h
  | addBalanceOp a' amt => exact AddBalance_addrOK db a' amt h
  | subBalanceOp a' amt => exact SubBalance_addrOK db a' amt h
  | setStateOp a' k' v' io => exact setState_addrOK db a' k' v' io h

theorem diffAddrOK_run (db : CachingStateDB) (ops : List Op) (h : diffAddrOK db) :
    diffAddrOK (run db ops) := by
  induction ops generalizing db with
  | nil => exact h
  | cons op t ih => exact run_cons db op t ▸ ih _ (diffAddrOK_applyOp db op h)

end StateDiffRepo

namespace StateDiffRepo

def dbC10 : CachingStateDB := (setState (initialDB remoteC1) "0xa" "0x1" "0x22" false).2

def dC10 : StorageDiff :=
  { Key := "0x1", ValueBefore := "0x11", ValueAfter := "0x22", Preimage := "", isSet := true }

theorem C10_theorem (db : CachingStateDB) (op : Op) (i : Int) (a : Addr) (k : Hash)
    (d : StorageDiff) (r : Remote) (p q : List Op) (v : Hash) (io : Bool) :
    (storageEntry db a k = some d → ∃ d', storageEntry (applyOp db op) a k = some d')
    ∧ applyOp db Op.snapshotOp = db
    ∧ (Snapshot db).1 = 0
    ∧ applyOp db (Op.revertToSnapshotOp i) = db
    ∧ (∃ sd, sd ∈ GetStateDiffs (run (initialDB r) (p ++ Op.setStateOp a k v io :: q))
         ∧ sd.Address = a ∧ (lookupA sd.StorageDiffs k).isSome) := by
  refine ⟨?_, rfl, rfl, rfl, ?_⟩
  · intro h
    exact Option.isSome_iff_exists.mp
      (storageEntry_isSome_applyOp db a k op (by simp [h]))
  · have hsplit : p ++ Op.setStateOp a k v io :: q = (p ++ [Op.setStateOp a k v io]) ++ q := by
      simp
    have hsome : (storageEntry (run (initialDB r) (p ++ Op.setStateOp a k v io :: q)) a k).isSome := by
      rw [hsplit, run_append, run_append]
      exact storageEntry_isSome_run _ a k q
        (storageEntry_setState_isSome (run (initialDB r) p) a k v io)
    obtain ⟨d', hd'⟩ := Option.isSome_iff_exists.mp hsome
    unfold storageEntry at hd'
    rcases hsd : lookupA (run (initialDB r) (p ++ Op.setStateOp a k v io :: q)).diffs a
      with _ | sd
    · rw [hsd] at hd'
      simp at hd'
    · rw [hsd] at hd'
      simp only [Option.some_bind] at hd'
      have haddr : sd.Address = a :=
        diffAddrOK_run (initialDB r) _
          (fun x sd' hx => by simp [initialDB, lookupA] at hx) a sd hsd
      exact ⟨sd, List.mem_map.mpr ⟨(a, sd), lookupA_mem hsd, rfl⟩, haddr, by simp [hd']⟩

theorem C10_theorem_witness :
    storageEntry dbC10 "0xa" "0x1" = some dC10
    ∧ (∃ d', storageEntry (applyOp dbC10 (Op.getStateOp "0xb" "0x2")) "0xa" "0x1" = some d') :=
  ⟨by decide,
    (C10_theorem dbC10 (Op.getStateOp "0xb" "0x2") 0 "0xa" "0x1" dC10 remoteC1 []
      [Op.revertToSnapshotOp 0] "0x22" false).1 (by decide)⟩

end StateDiffRepo

namespace StateDiffRepo

/-! ### Kernel-reducible string helpers

Lean's built-in `String.drop`, `String.toLower`, `String.endsWith`, ... are
implemented against byte positions and do not reduce inside the kernel, so the
Go `strings` operations are modelled on the character list instead. -/

/-- `s[n:]` / `strings.TrimPrefix` argument form: drop the first `n`
characters. -/
def strDrop (s : String) (n : Nat) : String := String.mk (s.data.drop n)

/-- Keep the first `n` characters. -/
def strTake (s : String) (n : Nat) : String := String.mk (s.data.take n)

/-- `strings.HasPrefix`. -/
def strStartsWith (s t : String) : Bool := s.data.take t.data.length == t.data

/-- `strings.HasSuffix`. -/
def strEndsWith (s t : String) : Bool := s.data.drop (s.data.length - t.data.length) == t.data

/-- `strings.ToLower` (ASCII, which is all the call sites feed it). -/
def strToLower (s : String) : String := String.mk (s.data.map Char.toLower)

/-- Drop the last `n` characters. -/
def strDropRight (s : String) (n : Nat) : String := String.mk (s.data.take (s.data.length - n))

/-! ### Renderer embedding (`internal/template/template.go` and the Markdown
renderer revision)

`template.Slot`'s Go field `Type` is spelled `Typ` because `Type` is a Lean
keyword. -/

structure Slot where
  Typ : String
  Summary : String
  OverrideMeaning : String
deriving Repr, DecidableEq

structure Contract where
  Name : String
  Slots : List (String × Slot)
deriving Repr, DecidableEq

structure Config where
  Contracts : List (String × List (String × Contract))
  StorageLayouts : List (String × List (String × Slot))
deriving Repr, DecidableEq

def DEFAULT_CONTRACT : Contract := { Name := "<<ContractName>>", Slots := [] }

def DEFAULT_SLOT : Slot :=
  { Typ := "<<DecodedKind>>", Summary := "<<Summary>>", OverrideMeaning := "<<OverrideMeaning>>" }

/-- `template.FileGenerator`.  `fuel` bounds the preimage-resolution loop of
`getSlot`, which is unbounded in the Go source (see the C6 theorems: the Go
loop need not terminate); every other behaviour is fuel-independent. -/
structure FileGenerator where
  db : CachingStateDB
  chainId : String
  cfg : Config
  fuel : Nat

/-- `FileGenerator.getContractCfg`: case-insensitive address lookup with the
placeholder default. -/
def getContractCfg (g : FileGenerator) (address : String) : Contract :=
  (lookupA ((lookupA g.cfg.Contracts g.chainId).getD []) (strToLower address)).getD
    DEFAULT_CONTRACT

/-- `common.HexToHash` on the hex strings `getSlot` feeds it: parse hex
(optional `0x`), keep the last 32 bytes, render `0x` + 64 lowercase hex
characters.  All call sites pass valid hex. -/
def hexToHash (s : String) : Hash :=
  let t := strToLower (if strStartsWith s "0x" then strDrop s 2 else s)
  if t.length ≤ 64 then "0x" ++ String.mk (List.replicate (64 - t.length) '0') ++ t
  else "0x" ++ strDrop t (t.length - 64)

/-- The `for` loop of `FileGenerator.getSlot`: fetch the preimage of the
current key; a preimage that is not exactly 128 hex characters yields the
default slot; otherwise look up the second 32-byte word and, failing that,
repeat on the preimage.  The Go loop has no bound, hence the fuel; `none`
means the loop is still running when the fuel ends. -/
def getSlotLoop (g : FileGenerator) (cfgC : Contract) : Nat → String → Option Slot
  | 0, _ => none
  | n + 1, slot =>
    let p := GetPreimage g.db (hexToHash slot)
    if p.length ≠ 128 then some DEFAULT_SLOT
    else
      match lookupA cfgC.Slots ("0x" ++ strToLower (strDrop p 64)) with
      | some t => some t
      | none => getSlotLoop g cfgC n p

/-- `FileGenerator.getSlot`: exact case-insensitive match first, then the
preimage loop. -/
def getSlotFuel (g : FileGenerator) (cfgC : Contract) (fuel : Nat) (slot : String) :
    Option Slot :=
  match lookupA cfgC.Slots (strToLower slot) with
  | some t => some t
  | none => getSlotLoop g cfgC fuel slot

/-- `getSlot` as used by the renderers, with the generator's loop bound. -/
def getSlotD (g : FileGenerator) (cfgC : Contract) (slot : String) : Slot :=
  (getSlotFuel g cfgC g.fuel slot).getD DEFAULT_SLOT

def hexDigit (c : Char) : Nat :=
  if '0' ≤ c ∧ c ≤ '9' then c.toNat - '0'.toNat
  else if 'a' ≤ c ∧ c ≤ 'f' then c.toNat - 'a'.toNat + 10
  else if 'A' ≤ c ∧ c ≤ 'F' then c.toNat - 'A'.toNat + 10
  else 0

/-- Big-endian hex-to-integer (`new(big.Int).SetBytes(common.FromHex(value))`). -/
def hexToNat (s : String) : Nat :=
  ((if strStartsWith s "0x" then strDrop s 2 else s).data).foldl
    (fun acc c => 16 * acc + hexDigit c) 0

/-- `template.getDecodedValue`.  The `address` arm is
`common.HexToAddress(value).Hex()` — the low 20 bytes; its EIP-55 checksum
casing is keccak-derived and abstracted to lowercase here (no claim concerns
the casing). -/
def getDecodedValue (slotTyp value : String) : String :=
  if slotTyp = "uint256" then toString (hexToNat value)
  else if slotTyp = "address" then
    let t := strToLower (if strStartsWith value "0x" then strDrop value 2 else value)
    "0x" ++ (if t.length ≤ 40 then String.mk (List.replicate (40 - t.length) '0') ++ t
             else strDrop t (t.length - 40))
  else "<<DecodedValue>>"

/-- `template.Override` (JSON output shape). -/
structure OverrideJ where
  Key : String
  Value : String
  Description : String
deriving Repr, DecidableEq

/-- `template.StateOverride` (JSON output shape). -/
structure StateOverrideJ where
  Name : String
  Address : String
  Overrides : List OverrideJ
deriving Repr, DecidableEq

/-- `template.Change` (JSON output shape). -/
structure ChangeJ where
  Key : String
  Before : String
  After : String
  Description : String
deriving Repr, DecidableEq

/-- `template.StateChange` (JSON output shape). -/
structure StateChangeJ where
  Name : String
  Address : String
  Changes : List ChangeJ
deriving Repr, DecidableEq

/-- Lexicographic strict comparison of character lists — Go string `<`
(byte-wise on the ASCII strings all comparisons here receive).  Defined from
scratch because Lean's `String.lt` decision procedure does not reduce in the
kernel. -/
def strLtL : List Char → List Char → Bool
  | [], [] => false
  | [], _ :: _ => true
  | _ :: _, [] => false
  | a :: as, b :: bs => if a < b then true else if b < a then false else strLtL as bs

/-- Go string `<` (lexicographic). -/
def strLt (x y : String) : Prop := strLtL x.data y.data = true

/-- Go string `≤` as the negation of `<` — the order the `sort.Slice` calls
leave the data in. -/
def strLe (x y : String) : Prop := strLtL y.data x.data = false

theorem strLtL_irrefl (l : List Char) : strLtL l l = false := by
  induction l with
  | nil => rfl
  | cons a t ih => simp [strLtL, ih, lt_irrefl]

theorem strLtL_trans {a b c : List Char} (h₁ : strLtL a b = true) (h₂ : strLtL b c = true) :
    strLtL a c = true := by
  induction a generalizing b c with
  | nil =>
    cases b with
    | nil => exact absurd h₁ (by simp [strLtL])
    | cons y bs =>
      cases c with
      | nil => exact absurd h₂ (by simp [strLtL])
      | cons z cs => simp [strLtL]
  | cons x as ih =>
    cases b with
    | nil => exact absurd h₁ (by simp [strLtL])
    | cons y bs =>
      cases c with
      | nil => exact absurd h₂ (by simp [strLtL])
      | cons z cs =>
        simp only [strLtL] at h₁ h₂ ⊢
        by_cases hxy : x < y
        · by_cases hyz : y < z
          · simp [lt_trans hxy hyz]
          · rw [if_neg hyz] at h₂
            by_cases hzy : z < y
            · simp [hzy] at h₂
            · have : y = z := le_antisymm (not_lt.mp hzy) (not_lt.mp hyz)
              subst this
              simp [hxy]
        · rw [if_neg hxy] at h₁
          by_cases hyx : y < x
          · simp [hyx] at h₁
          · have hxy' : x = y := le_antisymm (not_lt.mp hyx) (not_lt.mp hxy)
            subst hxy'
            by_cases hxz : x < z
            · simp [hxz]
            · rw [if_neg hxz] at h₂ ⊢
              by_cases hzx : z < x
              · simp [hzx] at h₂
              · rw [if_neg hzx] at h₂ ⊢
                simp only [if_neg hxy] at h₁
                exact ih h₁ h₂

theorem strLtL_connex {a b : List Char} (h₁ : strLtL a b = false) (h₂ : strLtL b a = false) :
    a = b := by
  induction a generalizing b with
  | nil =>
    cases b with
    | nil => rfl
    | cons y bs => exact absurd h₁ (by simp [strLtL])
  | cons x as ih =>
    cases b with
    | nil => exact absurd h₂ (by simp [strLtL])
    | cons y bs =>
      simp only [strLtL] at h₁ h₂
      by_cases hxy : x < y
      · simp [hxy] at h₁
      · by_cases hyx : y < x
        · simp [hyx] at h₂
        · have hxy' : x = y := le_antisymm (not_lt.mp hyx) (not_lt.mp hxy)
          subst hxy'
          simp only [if_neg hxy, lt_irrefl, if_neg (lt_irrefl x)] at h₁ h₂
          rw [ih h₁ h₂]

theorem strLe_trans {x y z : String} (h₁ : strLe x y) (h₂ : strLe y z) : strLe x z := by
  unfold strLe at *
  by_contra h
  have hzx : strLtL z.data x.data = true := by
    cases hc : strLtL z.data x.data
    · exact absurd hc h
    · rfl
  by_cases hxy : strLtL x.data y.data = true
  · exact absurd (strLtL_trans hzx hxy) (by simp [h₂])
  · have : x.data = y.data := strLtL_connex (by simpa using hxy) h₁
    rw [this] at hzx
    exact absurd hzx (by simp [h₂])

theorem strLe_total (x y : String) : strLe x y ∨ strLe y x := by
  unfold strLe
  by_cases h₁ : strLtL y.data x.data = false
  · exact Or.inl h₁
  · by_cases h₂ : strLtL x.data y.data = false
    · exact Or.inr h₂
    · have hxy : strLtL x.data y.data = true := by simpa using h₂
      have hyx : strLtL y.data x.data = true := by simpa using h₁
      exact absurd (strLtL_trans hxy hyx) (by simp [strLtL_irrefl])

/-- `sort.Slice` comparator of `convertOverridesToJSON`/`handleStateOverrides`:
by `ContractAddress.String()`. -/
def ovLE (x y : Override) : Prop := strLe x.ContractAddress y.ContractAddress

/-- Comparator on storage overrides: by `Key.String()`. -/
def soLE (x y : StorageOverride) : Prop := strLe x.Key y.Key

/-- Comparator of `convertDiffsToJSON`/`handleStateChanges`: by
`Address.String()`. -/
def sdLE (x y : StateDiff) : Prop := strLe x.Address y.Address

/-- Comparator on storage diffs: by `Key.String()`. -/
def sdfLE (x y : StorageDiff) : Prop := strLe x.Key y.Key

instance : DecidableRel ovLE := fun x y => by unfold ovLE strLe; infer_instance
instance : DecidableRel soLE := fun x y => by unfold soLE strLe; infer_instance
instance : DecidableRel sdLE := fun x y => by unfold sdLE strLe; infer_instance
instance : DecidableRel sdfLE := fun x y => by unfold sdfLE strLe; infer_instance

instance : IsTotal Override ovLE := ⟨fun x y => strLe_total x.ContractAddress y.ContractAddress⟩
instance : IsTotal StorageOverride soLE := ⟨fun x y => strLe_total x.Key y.Key⟩
instance : IsTotal StateDiff sdLE := ⟨fun x y => strLe_total x.Address y.Address⟩
instance : IsTotal StorageDiff sdfLE := ⟨fun x y => strLe_total x.Key y.Key⟩

instance : IsTrans Override ovLE := ⟨fun _ _ _ h h' => strLe_trans h h'⟩
instance : IsTrans StorageOverride soLE := ⟨fun _ _ _ h h' => strLe_trans h h'⟩
instance : IsTrans StateDiff sdLE := ⟨fun _ _ _ h h' => strLe_trans h h'⟩
instance : IsTrans StorageDiff sdfLE := ⟨fun _ _ _ h h' => strLe_trans h h'⟩

/-- `FileGenerator.convertOverridesToJSON`. -/
def convertOverridesToJSON (g : FileGenerator) (overrides : List Override) :
    List StateOverrideJ :=
  (List.insertionSort ovLE overrides).map fun ov =>
    let contract := getContractCfg g ov.ContractAddress
    { Name := contract.Name
      Address := ov.ContractAddress
      Overrides := (List.insertionSort soLE ov.Storage).map fun so =>
        { Key := so.Key, Value := so.Value
          Description := (getSlotD g contract so.Key).OverrideMeaning } }

/-- `FileGenerator.convertDiffsToJSON`: sort by address, sort each address's
storage diffs by key, drop `ValueBefore == ValueAfter` entries, drop an
address with no remaining change. -/
def convertDiffsToJSON (g : FileGenerator) (diffs : List StateDiff) : List StateChangeJ :=
  (List.insertionSort sdLE diffs).filterMap fun sd =>
    let contract := getContractCfg g sd.Address
    let changes := (List.insertionSort sdfLE (sd.StorageDiffs.map Prod.snd)).filterMap fun d =>
      if d.ValueBefore = d.ValueAfter then none
      else some { Key := d.Key, Before := d.ValueBefore, After := d.ValueAfter
                  Description := (getSlotD g contract d.Key).Summary }
    if changes.isEmpty then none
    else some { Name := contract.Name, Address := sd.Address, Changes := changes }

end StateDiffRepo

namespace StateDiffRepo

/-- One numbered entry of the Markdown "Task State Changes" section
(`handleStateChanges` loop body; `%s` on `common.Hash` renders `Hex()`). -/
def mdEntry (slot : Slot) (ctr : Nat) (d : StorageDiff) : String :=
  toString ctr ++ ". **Key**: `" ++ d.Key ++ "` <br/>\n" ++
  "   **Before**: `" ++ d.ValueBefore ++ "` <br/>\n" ++
  "   **After**: `" ++ d.ValueAfter ++ "` <br/>\n" ++
  "   **Value Type**: " ++ slot.Typ ++ " <br/>\n" ++
  "   **Decoded Old Value**: `" ++ getDecodedValue slot.Typ d.ValueBefore ++ "` <br/>\n" ++
  "   **Decoded New Value**: `" ++ getDecodedValue slot.Typ d.ValueAfter ++ "` <br/>\n" ++
  "   **Meaning**: " ++ slot.Summary ++ " <br/>\n\n"

/-- The part of the Markdown `handleStateChanges` loop that handles one
`StateDiff`: the contract heading is emitted whenever the address has at least
one storage diff (before the no-op filter), then the key-sorted entries, each
skipped when `ValueBefore == ValueAfter`, with a running entry counter.
In the Go code `getSlot` is invoked before the skip check; as that call's only
effect is the returned display `Slot`, invoking it after the check (as here)
renders the same string. -/
def changeSection (g : FileGenerator) (ctr : Nat) (sd : StateDiff) : String × Nat :=
  let contract := getContractCfg g sd.Address
  let storageDiffs := sd.StorageDiffs.map Prod.snd
  let heading :=
    if storageDiffs.length > 0
    then "### " ++ contract.Name ++ " (`" ++ sd.Address ++ "`)\n\n" else ""
  let body := (List.insertionSort sdfLE storageDiffs).foldl
    (fun acc d =>
      if d.ValueBefore = d.ValueAfter then acc
      else (acc.1 ++ mdEntry (getSlotD g contract d.Key) acc.2 d, acc.2 + 1)) ("", ctr)
  (heading ++ body.1, body.2)

/-- `strings.TrimSuffix`. -/
def trimSuffix (s suf : String) : String :=
  if strEndsWith s suf then strDropRight s suf.length else s

/-- The `stateChanges` string built by the Markdown `handleStateChanges`
(address-sorted sections, trailing blank line trimmed) — the contents that
replace `<<StateChanges>>` in the template. -/
def handleStateChangesString (g : FileGenerator) (changes : List StateDiff) : String :=
  let res := (List.insertionSort sdLE changes).foldl
    (fun acc sd =>
      let sec := changeSection g acc.2 sd
      (acc.1 ++ sec.1, sec.2)) ("", 0)
  trimSuffix res.1 "\n\n"

/-- One storage-override entry of the Markdown "State Overrides" section. -/
def overrideEntry (slot : Slot) (so : StorageOverride) : String :=
  "- **Key**: `" ++ so.Key ++ "` <br/>\n" ++
  "  **Override**: `" ++ so.Value ++ "` <br/>\n" ++
  "  **Meaning**: " ++ slot.OverrideMeaning ++ "\n\n"

/-- One contract of the Markdown "State Overrides" section: heading plus
key-sorted entries. -/
def overrideSection (g : FileGenerator) (ov : Override) : String :=
  let contract := getContractCfg g ov.ContractAddress
  "### " ++ contract.Name ++ " (`" ++ ov.ContractAddress ++ "`)\n\n"
    ++ String.join ((List.insertionSort soLE ov.Storage).map fun so =>
        overrideEntry (getSlotD g contract so.Key) so)

/-- The `stateOverrides` string built by the Markdown `handleStateOverrides`
(address-sorted sections, trailing blank line trimmed). -/
def handleStateOverridesString (g : FileGenerator) (overrides : List Override) : String :=
  trimSuffix
    (String.join ((List.insertionSort ovLE overrides).map (overrideSection g))) "\n\n"

/-- The storage diffs of one address that survive the no-op filter, in render
order. -/
def keptDiffs (sd : StateDiff) : List StorageDiff :=
  (List.insertionSort sdfLE (sd.StorageDiffs.map Prod.snd)).filter
    fun d => d.ValueBefore != d.ValueAfter

/-- The rendered entries for a list of kept diffs, numbered from `c`. -/
def mdNumbered (g : FileGenerator) (contract : Contract) : Nat → List StorageDiff → List String
  | _, [] => []
  | c, d :: t => mdEntry (getSlotD g contract d.Key) c d :: mdNumbered g contract (c + 1) t

theorem stringJoinNil : String.join [] = "" := rfl

theorem stringJoinCons (s : String) (l : List String) :
    String.join (s :: l) = s ++ String.join l := by
  apply String.ext
  simp [String.join_eq]

theorem mdFold (g : FileGenerator) (contract : Contract) (l : List StorageDiff)
    (acc : String) (c : Nat) :
    l.foldl
      (fun acc d =>
        if d.ValueBefore = d.ValueAfter then acc
        else (acc.1 ++ mdEntry (getSlotD g contract d.Key) acc.2 d, acc.2 + 1)) (acc, c)
    = (acc ++ String.join
        (mdNumbered g contract c (l.filter fun d => d.ValueBefore != d.ValueAfter)),
       c + (l.filter fun d => d.ValueBefore != d.ValueAfter).length) := by
  induction l generalizing acc c with
  | nil => simp [mdNumbered, String.join, String.append_empty]
  | cons d t ih =>
    by_cases h : d.ValueBefore = d.ValueAfter
    · simp [h, ih]
    · simp only [List.foldl_cons, if_neg h, ih, List.filter_cons,
        show (d.ValueBefore != d.ValueAfter) = true by simpa using h]
      simp [mdNumbered, stringJoinCons, String.append_assoc, Nat.add_assoc, Nat.add_comm 1]

/-- C3: every storage-diff entry that reaches a rendered report has
`ValueBefore ≠ ValueAfter`.  In the JSON format every rendered `Change`
satisfies it; in the Markdown format each address section renders exactly the
no-op-filtered `keptDiffs` (and nothing else). -/
theorem C3_theorem (g : FileGenerator) (diffs : List StateDiff) :
    (∀ sc ∈ convertDiffsToJSON g diffs, ∀ ch ∈ sc.Changes, ch.Before ≠ ch.After)
    ∧ ∀ ctr sd, changeSection g ctr sd
        = ((if sd.StorageDiffs.map Prod.snd = [] then ""
            else "### " ++ (getContractCfg g sd.Address).Name ++ " (`" ++ sd.Address ++ "`)\n\n")
           ++ String.join (mdNumbered g (getContractCfg g sd.Address) ctr (keptDiffs sd)),
          ctr + (keptDiffs sd).length) := by
  constructor
  · intro sc hsc ch hch
    obtain ⟨sd, hsd, hf⟩ := List.mem_filterMap.mp hsc
    dsimp only at hf
    split at hf
    · exact absurd hf (by simp)
    · injection hf with hf
      subst hf
      obtain ⟨d, hd, hfd⟩ := List.mem_filterMap.mp hch
      split at hfd
      · exact absurd hfd (by simp)
      · rename_i hne
        injection hfd with hfd
        subst hfd
        exact hne
  · intro ctr sd
    simp only [changeSection, keptDiffs]
    rw [mdFold]
    rw [String.empty_append]
    refine Prod.ext ?_ rfl
    congr 1
    rcases hl : sd.StorageDiffs.map Prod.snd with _ | ⟨d, t⟩ <;> simp [hl]

end StateDiffRepo

namespace StateDiffRepo

theorem changeSection_eq (g : FileGenerator) (ctr : Nat) (sd : StateDiff) :
    changeSection g ctr sd
      = ((if sd.StorageDiffs.map Prod.snd = [] then ""
          else "### " ++ (getContractCfg g sd.Address).Name ++ " (`" ++ sd.Address ++ "`)\n\n")
         ++ String.join (mdNumbered g (getContractCfg g sd.Address) ctr (keptDiffs sd)),
        ctr + (keptDiffs sd).length) := by
  simp only [changeSection, keptDiffs]
  rw [mdFold]
  rw [String.empty_append]
  refine Prod.ext ?_ rfl
  congr 1
  rcases hl : sd.StorageDiffs.map Prod.snd with _ | ⟨d, t⟩ <;> simp [hl]

def gC : FileGenerator :=
  { db := initialDB remoteC1, chainId := "1",
    cfg := { Contracts := [], StorageLayouts := [] }, fuel := 1 }

def sdC4 : StateDiff :=
  { Address := "0xaa", BalanceBefore := none, BalanceAfter := none, NonceSeen := false,
    NonceBefore := 0, NonceAfter := 0,
    StorageDiffs := [("0x1", { Key := "0x1", ValueBefore := "0x5", ValueAfter := "0x5",
                               Preimage := "", isSet := true })] }

/-- C4 counterexample: an address whose single storage diff is a no-op
(`0x5 → 0x5`).  The JSON renderer drops the address, but the Markdown
renderer still prints its contract heading (the heading guard checks only
that the address has storage diffs, before the no-op filter), so the claim
fails for the Markdown format. -/
theorem C4_counterexample :
    sdC4.StorageDiffs.all (fun p => p.2.ValueBefore == p.2.ValueAfter) = true
    ∧ convertDiffsToJSON gC [sdC4] = []
    ∧ handleStateChangesString gC [sdC4] = "### <<ContractName>> (`0xaa`)" := by
  refine ⟨by decide, by decide, by decide⟩

/-- C4 (amended): in the JSON format a rendered `StateChange` always has a
non-empty change list, and an address all of whose storage diffs are no-ops
never appears; in the Markdown format an address with NO storage diffs at all
produces nothing, but an address whose diffs are all no-ops still produces its
contract heading (with no entries under it). -/
theorem C4_theorem (g : FileGenerator) (diffs : List StateDiff) (a : String) (ctr : Nat)
    (sd : StateDiff) :
    (∀ sc ∈ convertDiffsToJSON g diffs, sc.Changes ≠ [])
    ∧ ((∀ sd' ∈ diffs, sd'.Address = a →
          ∀ d ∈ sd'.StorageDiffs.map Prod.snd, d.ValueBefore = d.ValueAfter) →
        ∀ sc ∈ convertDiffsToJSON g diffs, sc.Address ≠ a)
    ∧ (sd.StorageDiffs = [] → changeSection g ctr sd = ("", ctr))
    ∧ (sd.StorageDiffs ≠ [] →
        (∀ d ∈ sd.StorageDiffs.map Prod.snd, d.ValueBefore = d.ValueAfter) →
        changeSection g ctr sd
          = ("### " ++ (getContractCfg g sd.Address).Name ++ " (`" ++ sd.Address ++ "`)\n\n",
             ctr)) := by
  refine ⟨?_, ?_, ?_, ?_⟩
  · intro sc hsc
    obtain ⟨sd', hsd', hf⟩ := List.mem_filterMap.mp hsc
    dsimp only at hf
    split at hf
    · exact absurd hf (by simp)
    · rename_i hne
      injection hf with hf
      subst hf
      intro hEmpty
      exact hne (by rw [List.isEmpty_iff]; simpa using hEmpty)
  · intro hall sc hsc ha
    obtain ⟨sd', hsd', hf⟩ := List.mem_filterMap.mp hsc
    dsimp only at hf
    split at hf
    · exact absurd hf (by simp)
    · rename_i hne
      injection hf with hf
      have hmem : sd' ∈ diffs := (List.mem_insertionSort sdLE).mp hsd'
      have haddr : sd'.Address = a := by rw [← hf] at ha; simpa using ha
      rcases hch : List.filterMap
          (fun d =>
            if d.ValueBefore = d.ValueAfter then none
            else some ({ Key := d.Key, Before := d.ValueBefore, After := d.ValueAfter,
                         Description := (getSlotD g (getContractCfg g sd'.Address) d.Key).Summary }
                       : ChangeJ))
          (List.insertionSort sdfLE (List.map Prod.snd sd'.StorageDiffs)) with _ | ⟨ch, chs⟩
      · exact hne (by simp [hch])
      · have hch' : ch ∈ List.filterMap
            (fun d =>
              if d.ValueBefore = d.ValueAfter then none
              else some ({ Key := d.Key, Before := d.ValueBefore, After := d.ValueAfter,
                           Description := (getSlotD g (getContractCfg g sd'.Address) d.Key).Summary }
                         : ChangeJ))
            (List.insertionSort sdfLE (List.map Prod.snd sd'.StorageDiffs)) := by
          rw [hch]; exact List.mem_cons_self _ _
        obtain ⟨d, hd, hfd⟩ := List.mem_filterMap.mp hch'
        split at hfd
        · exact absurd hfd (by simp)
        · rename_i hneq
          exact hneq (hall sd' hmem haddr d ((List.mem_insertionSort sdfLE).mp hd))
  · intro h
    rw [changeSection_eq]
    simp [h, keptDiffs, mdNumbered, stringJoinNil]
  · intro h hall
    rw [changeSection_eq]
    have hk : keptDiffs sd = [] := by
      unfold keptDiffs
      rw [List.filter_eq_nil_iff]
      intro d hd
      simp [hall d ((List.mem_insertionSort sdfLE).mp hd)]
    have hm : ¬ sd.StorageDiffs.map Prod.snd = [] := by simpa using h
    simp [hk, hm, mdNumbered, stringJoinNil, String.append_empty]

theorem C4_theorem_witness :
    (sdC4.StorageDiffs ≠ []
     ∧ ∀ d ∈ sdC4.StorageDiffs.map Prod.snd, d.ValueBefore = d.ValueAfter)
    ∧ changeSection gC 0 sdC4
        = ("### " ++ (getContractCfg gC sdC4.Address).Name ++ " (`" ++ sdC4.Address ++ "`)\n\n",
           0) :=
  ⟨⟨by decide, by decide⟩,
    (C4_theorem gC [] "0xaa" 0 sdC4).2.2.2 (by decide) (by decide)⟩

end StateDiffRepo

namespace StateDiffRepo

def sdC3 : StateDiff :=
  { Address := "0xaa", BalanceBefore := none, BalanceAfter := none, NonceSeen := false,
    NonceBefore := 0, NonceAfter := 0,
    StorageDiffs := [("0x1", { Key := "0x1", ValueBefore := "0x2", ValueAfter := "0x3",
                               Preimage := "", isSet := true })] }

def chC3 : ChangeJ :=
  { Key := "0x1", Before := "0x2", After := "0x3", Description := "<<Summary>>" }

def scC3 : StateChangeJ :=
  { Name := "<<ContractName>>", Address := "0xaa", Changes := [chC3] }

theorem C3_theorem_witness :
    (scC3 ∈ convertDiffsToJSON gC [sdC3] ∧ chC3 ∈ scC3.Changes)
    ∧ chC3.Before ≠ chC3.After :=
  ⟨⟨by decide, by decide⟩, (C3_theorem gC [sdC3]).1 scC3 (by decide) chC3 (by decide)⟩

/-- C5: both rendered sections are ordered by contract address ascending
(lexicographic comparison of the rendered hex address strings) and, within
each contract, by slot key ascending; the Markdown renderers iterate the same
address-sorted and key-sorted lists (`handleStateChangesString` /
`handleStateOverridesString` fold over `List.insertionSort sdLE` /
`List.insertionSort ovLE` by definition). -/
theorem C5_theorem (g : FileGenerator) (ovs : List Override) (diffs : List StateDiff) :
    List.Sorted (fun x y : StateOverrideJ => strLe x.Address y.Address)
      (convertOverridesToJSON g ovs)
    ∧ (∀ so ∈ convertOverridesToJSON g ovs,
        List.Sorted (fun x y : OverrideJ => strLe x.Key y.Key) so.Overrides)
    ∧ List.Sorted (fun x y : StateChangeJ => strLe x.Address y.Address)
        (convertDiffsToJSON g diffs)
    ∧ (∀ sc ∈ convertDiffsToJSON g diffs,
        List.Sorted (fun x y : ChangeJ => strLe x.Key y.Key) sc.Changes)
    ∧ List.Sorted sdLE (List.insertionSort sdLE diffs)
    ∧ (List.insertionSort sdLE diffs).Perm diffs
    ∧ List.Sorted ovLE (List.insertionSort ovLE ovs)
    ∧ (List.insertionSort ovLE ovs).Perm ovs
    ∧ ∀ sd : StateDiff,
        List.Sorted sdfLE (List.insertionSort sdfLE (sd.StorageDiffs.map Prod.snd)) := by
  refine ⟨?_, ?_, ?_, ?_, List.sorted_insertionSort sdLE diffs,
    List.perm_insertionSort sdLE diffs, List.sorted_insertionSort ovLE ovs,
    List.perm_insertionSort ovLE ovs, fun sd => List.sorted_insertionSort sdfLE _⟩
  · exact List.Pairwise.map _ (fun a b h => h) (List.sorted_insertionSort ovLE ovs)
  · intro so hso
    obtain ⟨ov, _, rfl⟩ := List.mem_map.mp hso
    exact List.Pairwise.map _ (fun a b h => h) (List.sorted_insertionSort soLE ov.Storage)
  · refine List.Pairwise.filterMap _ ?_ (List.sorted_insertionSort sdLE diffs)
    intro sd sd' hle b hb b' hb'
    simp only [Option.mem_def] at hb hb'
    split at hb
    · exact absurd hb (by simp)
    · split at hb'
      · exact absurd hb' (by simp)
      · injection hb with hb
        injection hb' with hb'
        subst hb
        subst hb'
        exact hle
  · intro sc hsc
    obtain ⟨sd, hsd, hf⟩ := List.mem_filterMap.mp hsc
    dsimp only at hf
    split at hf
    · exact absurd hf (by simp)
    · injection hf with hf
      subst hf
      refine List.Pairwise.filterMap _ ?_ (List.sorted_insertionSort sdfLE _)
      intro d d' hle b hb b' hb'
      simp only [Option.mem_def] at hb hb'
      split at hb
      · exact absurd hb (by simp)
      · split at hb'
        · exact absurd hb' (by simp)
        · injection hb with hb
          injection hb' with hb'
          subst hb
          subst hb'
          exact hle

def ovC5 : Override :=
  { ContractAddress := "0xaa",
    Storage := [{ Key := "0x2", Value := "0x1" }, { Key := "0x1", Value := "0x2" }] }

def soC5 : StateOverrideJ :=
  { Name := "<<ContractName>>", Address := "0xaa",
    Overrides := [{ Key := "0x1", Value := "0x2", Description := "<<OverrideMeaning>>" },
                  { Key := "0x2", Value := "0x1", Description := "<<OverrideMeaning>>" }] }

theorem C5_theorem_witness :
    soC5 ∈ convertOverridesToJSON gC [ovC5]
    ∧ List.Sorted (fun x y : OverrideJ => strLe x.Key y.Key) soC5.Overrides :=
  ⟨by decide, (C5_theorem gC [ovC5] []).2.1 soC5 (by decide)⟩

end StateDiffRepo

namespace StateDiffRepo

/-- 64 copies of one character (one 32-byte word of lowercase hex). -/
def w64 (c : Char) : String := String.mk (List.replicate 64 c)

/-- Once the `getSlot` loop has produced a result within some fuel, any
larger fuel gives the same result. -/
theorem getSlotLoop_mono (g : FileGenerator) (c : Contract) {n m : Nat} {s : String}
    {t : Slot} (h : getSlotLoop g c n s = some t) (hnm : n ≤ m) :
    getSlotLoop g c m s = some t := by
  induction n generalizing s m with
  | zero => exact absurd h (by simp [getSlotLoop])
  | succ n ih =>
    rcases m with _ | m'
    · omega
    · have hn : n ≤ m' := Nat.le_of_succ_le_succ hnm
      simp only [getSlotLoop] at h ⊢
      split at h
      · rename_i hlen
        rw [if_pos hlen]
        exact h
      · rename_i hlen
        rw [if_neg hlen]
        rcases hlk : lookupA c.Slots ("0x" ++ strToLower (strDrop (GetPreimage g.db (hexToHash s)) 64))
          with _ | t' <;> rw [hlk] at h
        · exact ih h hn
        · exact h

/-- `getSlot` runs the preimage loop forever on this key: every fuel bound is
exhausted without an answer (the claim's termination assertion fails on a
preimage registry whose chain cycles). -/
def getSlotDiverges (g : FileGenerator) (c : Contract) (slot : String) : Prop :=
  ∀ n, getSlotFuel g c n slot = none

set_option maxRecDepth 16384

def slotC6 : Slot := { Typ := "uint256", Summary := "mapping entry", OverrideMeaning := "om" }

def cfgC6 : Contract := { Name := "C", Slots := [("0x" ++ w64 'c', slotC6)] }

def k0C6 : String := "0x" ++ w64 'e'

def p1C6 : String := w64 'a' ++ w64 'b'

def p2C6 : String := w64 'd' ++ w64 'c'

def gC6 : FileGenerator :=
  { db := { initialDB remoteC1 with preimages := [(k0C6, p1C6), ("0x" ++ w64 'b', p2C6)] },
    chainId := "1", cfg := { Contracts := [], StorageLayouts := [] }, fuel := 2 }

def kCyc : String := "0x" ++ w64 'f'

def pCyc : String := w64 'a' ++ w64 'f'

def gCyc : FileGenerator :=
  { db := { initialDB remoteC1 with preimages := [(kCyc, pCyc)] },
    chainId := "1", cfg := { Contracts := [], StorageLayouts := [] }, fuel := 2 }

theorem gCyc_loop_step (n : Nat) :
    getSlotLoop gCyc cfgC6 (n + 1) pCyc = getSlotLoop gCyc cfgC6 n pCyc := by
  simp only [getSlotLoop]
  rw [if_neg (by decide), show lookupA cfgC6.Slots
    ("0x" ++ strToLower (strDrop (GetPreimage gCyc.db (hexToHash pCyc)) 64)) = none by decide,
    show GetPreimage gCyc.db (hexToHash pCyc) = pCyc by decide]

theorem gCyc_loop_none (n : Nat) : getSlotLoop gCyc cfgC6 n pCyc = none := by
  induction n with
  | zero => rfl
  | succ n ih => rw [gCyc_loop_step, ih]

/-- C6 counterexample.  First violation: key `k0C6` has no exact match, its
preimage `p1C6` is 128 hex characters, and the second word of `p1C6` is NOT
configured — the claim then demands the default placeholder slot — yet the
code keeps following the preimage chain and returns the configured entry of a
second-level preimage (`slotC6 ≠ DEFAULT_SLOT`).  Second violation: on a
preimage registry whose chain cycles (`kCyc ↦ pCyc`, whose second word maps
back to `pCyc`), `getSlot` never terminates at all. -/
theorem C6_counterexample :
    lookupA cfgC6.Slots (strToLower k0C6) = none
    ∧ (GetPreimage gC6.db (hexToHash k0C6)).length = 128
    ∧ lookupA cfgC6.Slots
        ("0x" ++ strToLower (strDrop (GetPreimage gC6.db (hexToHash k0C6)) 64)) = none
    ∧ getSlotFuel gC6 cfgC6 2 k0C6 = some slotC6
    ∧ slotC6 ≠ DEFAULT_SLOT
    ∧ getSlotDiverges gCyc cfgC6 kCyc := by
  refine ⟨by decide, by decide, by decide, by decide, by decide, ?_⟩
  intro n
  rcases n with _ | n'
  · rfl
  · simp only [getSlotFuel]
    rw [show lookupA cfgC6.Slots (strToLower kCyc) = none by decide]
    rw [show getSlotLoop gCyc cfgC6 (n' + 1) kCyc = getSlotLoop gCyc cfgC6 n' pCyc by
      simp only [getSlotLoop]
      rw [if_neg (by decide), show lookupA cfgC6.Slots
        ("0x" ++ strToLower (strDrop (GetPreimage gCyc.db (hexToHash kCyc)) 64)) = none by decide,
        show GetPreimage gCyc.db (hexToHash kCyc) = pCyc by decide]]
    exact gCyc_loop_none n'

/-- C6 (amended): an exact case-insensitive slot-key match always wins, at any
fuel; otherwise `getSlot` follows the preimage chain: a preimage that is not
exactly 128 hex characters gives the default placeholder slot, a 128-character
preimage whose second 32-byte word is configured gives that entry, and an
unmatched 128-character preimage makes the loop continue on the preimage
itself — so a match may be found at any chain depth, and the loop (unbounded
in the Go source) terminates only if the chain eventually resolves. -/
theorem C6_theorem (g : FileGenerator) (cfgC : Contract) (slot : String) (fuel : Nat)
    (t : Slot) :
    (lookupA cfgC.Slots (strToLower slot) = some t →
      getSlotFuel g cfgC fuel slot = some t)
    ∧ (lookupA cfgC.Slots (strToLower slot) = none →
        (GetPreimage g.db (hexToHash slot)).length ≠ 128 →
        getSlotFuel g cfgC (fuel + 1) slot = some DEFAULT_SLOT)
    ∧ (lookupA cfgC.Slots (strToLower slot) = none →
        (GetPreimage g.db (hexToHash slot)).length = 128 →
        lookupA cfgC.Slots
          ("0x" ++ strToLower (strDrop (GetPreimage g.db (hexToHash slot)) 64)) = some t →
        getSlotFuel g cfgC (fuel + 1) slot = some t)
    ∧ (lookupA cfgC.Slots (strToLower slot) = none →
        (GetPreimage g.db (hexToHash slot)).length = 128 →
        lookupA cfgC.Slots
          ("0x" ++ strToLower (strDrop (GetPreimage g.db (hexToHash slot)) 64)) = none →
        getSlotFuel g cfgC (fuel + 1) slot
          = getSlotLoop g cfgC fuel (GetPreimage g.db (hexToHash slot))) := by
  refine ⟨?_, ?_, ?_, ?_⟩
  · intro h
    simp [getSlotFuel, h]
  · intro h hlen
    simp only [getSlotFuel, getSlotLoop]
    rw [h, if_pos hlen]
  · intro h hlen hlk
    simp only [getSlotFuel, getSlotLoop]
    rw [h, if_neg (by simp [hlen]), hlk]
  · intro h hlen hlk
    simp only [getSlotFuel, getSlotLoop]
    rw [h, if_neg (by simp [hlen]), hlk]

theorem C6_theorem_witness :
    (lookupA cfgC6.Slots (strToLower ("0x" ++ w64 'b')) = none
     ∧ (GetPreimage gC6.db (hexToHash ("0x" ++ w64 'b'))).length = 128
     ∧ lookupA cfgC6.Slots
         ("0x" ++ strToLower (strDrop (GetPreimage gC6.db (hexToHash ("0x" ++ w64 'b'))) 64))
         = some slotC6)
    ∧ getSlotFuel gC6 cfgC6 1 ("0x" ++ w64 'b') = some slotC6 :=
  ⟨⟨by decide, by decide, by decide⟩,
    (C6_theorem gC6 cfgC6 ("0x" ++ w64 'b') 0 slotC6).2.2.1 (by decide) (by decide) (by decide)⟩

end StateDiffRepo

namespace StateDiffRepo

theorem mem_keys_upsertA {α β : Type} [DecidableEq α] {l : List (α × β)} {k x : α} {v : β} :
    x ∈ (upsertA l k v).map Prod.fst ↔ x ∈ l.map Prod.fst ∨ x = k := by
  induction l with
  | nil => simp [upsertA]
  | cons hd t ih =>
    obtain ⟨k₀, v₀⟩ := hd
    by_cases hk : k₀ = k
    · subst hk
      simp [upsertA]
      tauto
    · simp [upsertA, hk, ih]
      tauto

theorem upsertA_keys_nodup {α β : Type} [DecidableEq α] {l : List (α × β)} {k : α} {v : β}
    (h : (l.map Prod.fst).Nodup) : ((upsertA l k v).map Prod.fst).Nodup := by
  induction l with
  | nil => simp [upsertA]
  | cons hd t ih =>
    obtain ⟨k₀, v₀⟩ := hd
    simp only [List.map_cons, List.nodup_cons] at h
    by_cases hk : k₀ = k
    · subst hk
      simp [upsertA, List.nodup_cons, h.1, h.2]
    · simp only [upsertA, if_neg hk, List.map_cons, List.nodup_cons]
      refine ⟨fun hmem => ?_, ih h.2⟩
      rcases mem_keys_upsertA.mp hmem with hm | hm
      · exact h.1 hm
      · exact hk hm

theorem lookupA_eq_of_mem_nodup {α β : Type} [DecidableEq α] {l : List (α × β)} {x : α} {y : β}
    (hn : (l.map Prod.fst).Nodup) (hm : (x, y) ∈ l) : lookupA l x = some y := by
  induction l with
  | nil => simp at hm
  | cons hd t ih =>
    obtain ⟨k₀, v₀⟩ := hd
    simp only [List.map_cons, List.nodup_cons] at hn
    rcases List.mem_cons.mp hm with hm | hm
    · injection hm with h1 h2
      subst h1; subst h2
      simp [lookupA]
    · have hx : k₀ ≠ x := by
        intro hh
        subst hh
        exact hn.1 (List.mem_map.mpr ⟨(k₀, y), hm, rfl⟩)
      simp [lookupA, hx, ih hn.2 hm]

/-- Well-formedness of the diff map: addresses key the map uniquely, each
`StateDiff` carries its address, and each nested `StorageDiffs` map is keyed
uniquely by the `Key` its entries carry. -/
def diffsWF (db : CachingStateDB) : Prop :=
  (db.diffs.map Prod.fst).Nodup
  ∧ ∀ x sd, lookupA db.diffs x = some sd →
      sd.Address = x
      ∧ (sd.StorageDiffs.map Prod.fst).Nodup
      ∧ ∀ k d, lookupA sd.StorageDiffs k = some d → d.Key = k

theorem getStateDiffD_wf {db : CachingStateDB} (h : diffsWF db) (a : Addr) :
    (getStateDiffD db a).Address = a
    ∧ ((getStateDiffD db a).StorageDiffs.map Prod.fst).Nodup
    ∧ ∀ k d, lookupA (getStateDiffD db a).StorageDiffs k = some d → d.Key = k := by
  unfold getStateDiffD
  rcases hl : lookupA db.diffs a with _ | sd
  · simp [NewStateDiff, lookupA]
  · simpa using h.2 a sd hl

theorem getStorageDiffD_Key {sd : StateDiff} {k : Hash}
    (h : ∀ k' d, lookupA sd.StorageDiffs k' = some d → d.Key = k') :
    (getStorageDiffD sd k).Key = k := by
  unfold getStorageDiffD
  rcases hl : lookupA sd.StorageDiffs k with _ | d
  · simp
  · simpa using h k d hl

theorem AddBalance_diffsWF (db : CachingStateDB) (a : Addr) (amt : Nat) (h : diffsWF db) :
    diffsWF (AddBalance db a amt).2 := by
  constructor
  · unfold AddBalance heapSet alloc
    split
    rename_i p db' heq
    have hd : db'.diffs = db.diffs := by rw [← GetBalance_snd_diffs db a, heq]
    dsimp only
    split <;> (rw [hd]; exact upsertA_keys_nodup h.1)
  · intro x sd' hx
    unfold AddBalance heapSet alloc at hx
    split at hx
    rename_i p db' heq
    have hd : db'.diffs = db.diffs := by rw [← GetBalance_snd_diffs db a, heq]
    dsimp only at hx
    split at hx <;>
    · rw [hd] at hx
      rcases lookupA_upsertA_elim hx with ⟨rfl, rfl⟩ | hold
      · refine ⟨?_, ?_, ?_⟩
        · dsimp only
          split <;> exact (getStateDiffD_wf h x).1
        · dsimp only
          split <;> exact (getStateDiffD_wf h x).2.1
        · dsimp only
          split <;> exact (getStateDiffD_wf h x).2.2
      · exact h.2 x sd' hold

theorem SubBalance_diffsWF (db : CachingStateDB) (a : Addr) (amt : Nat) (h : diffsWF db) :
    diffsWF (SubBalance db a amt).2 := by
  constructor
  · unfold SubBalance heapSet alloc
    split
    rename_i p db' heq
    have hd : db'.diffs = db.diffs := by rw [← GetBalance_snd_diffs db a, heq]
    dsimp only
    split <;> (rw [hd]; exact upsertA_keys_nodup h.1)
  · intro x sd' hx
    unfold SubBalance heapSet alloc at hx
    split at hx
    rename_i p db' heq
    have hd : db'.diffs = db.diffs := by rw [← GetBalance_snd_diffs db a, heq]
    dsimp only at hx
    split at hx <;>
    · rw [hd] at hx
      rcases lookupA_upsertA_elim hx with ⟨rfl, rfl⟩ | hold
      · refine ⟨?_, ?_, ?_⟩
        · dsimp only
          split <;> exact (getStateDiffD_wf h x).1
        · dsimp only
          split <;> exact (getStateDiffD_wf h x).2.1
        · dsimp only
          split <;> exact (getStateDiffD_wf h x).2.2
      · exact h.2 x sd' hold

theorem SetNonce_diffsWF (db : CachingStateDB) (a : Addr) (n : Nat) (h : diffsWF db) :
    diffsWF (SetNonce db a n) := by
  constructor
  · unfold SetNonce
    split
    rename_i nb db₁ heq
    have hd : db₁.diffs = db.diffs := by rw [← GetNonce_snd_diffs db a, heq]
    dsimp only
    rw [hd]
    exact upsertA_keys_nodup h.1
  · intro x sd' hx
    unfold SetNonce at hx
    split at hx
    rename_i nb db₁ heq
    have hd : db₁.diffs = db.diffs := by rw [← GetNonce_snd_diffs db a, heq]
    dsimp only at hx
    rw [hd] at hx
    rcases lookupA_upsertA_elim hx with ⟨rfl, rfl⟩ | hold
    · refine ⟨?_, ?_, ?_⟩
      · dsimp only
        split <;> exact (getStateDiffD_wf h x).1
      · dsimp only
        split <;> exact (getStateDiffD_wf h x).2.1
      · dsimp only
        split <;> exact (getStateDiffD_wf h x).2.2
    · exact h.2 x sd' hold

theorem setState_diffsWF (db : CachingStateDB) (a : Addr) (k v : Hash) (io : Bool)
    (h : diffsWF db) : diffsWF (setState db a k v io).2 := by
  constructor
  · unfold setState
    split
    rename_i vf db₁ heq
    have hd : db₁.diffs = db.diffs := by rw [← GetState_snd_diffs db a k, heq]
    dsimp only
    rw [hd]
    exact upsertA_keys_nodup h.1
  · intro x sd' hx
    unfold setState at hx
    split at hx
    rename_i vf db₁ heq
    have hd : db₁.diffs = db.diffs := by rw [← GetState_snd_diffs db a k, heq]
    dsimp only at hx
    rw [hd] at hx
    rcases lookupA_upsertA_elim hx with ⟨rfl, rfl⟩ | hold
    · refine ⟨(getStateDiffD_wf h x).1, ?_, ?_⟩
      · dsimp only
        exact upsertA_keys_nodup (getStateDiffD_wf h x).2.1
      · intro k' d hkd
        dsimp only at hkd
        rcases lookupA_upsertA_elim hkd with ⟨rfl, rfl⟩ | hold'
        · dsimp only
          have hkey := getStorageDiffD_Key (getStateDiffD_wf h x).2.2 (k := k')
          split <;> exact hkey
        · exact (getStateDiffD_wf h x).2.2 k' d hold'
    · exact h.2 x sd' hold

end StateDiffRepo

namespace StateDiffRepo

theorem diffsWF_applyOp (db : CachingStateDB) (op : Op) (h : diffsWF db) :
    diffsWF (applyOp db op) := by
  cases op with
  | getStateOp a' k' =>
    have hdq : (applyOp db (Op.getStateOp a' k')).diffs = db.diffs := GetState_snd_diffs db a' k'
    exact ⟨hdq ▸ h.1, fun x sd hx => h.2 x sd (hdq ▸ hx)⟩
  | getBalanceOp a' =>
    have hdq : (applyOp db (Op.getBalanceOp a')).diffs = db.diffs := GetBalance_snd_diffs db a'
    exact ⟨hdq ▸ h.1, fun x sd hx => h.2 x sd (hdq ▸ hx)⟩
  | getNonceOp a' =>
    have hdq : (applyOp db (Op.getNonceOp a')).diffs = db.diffs := GetNonce_snd_diffs db a'
    exact ⟨hdq ▸ h.1, fun x sd hx => h.2 x sd (hdq ▸ hx)⟩
  | getCodeOp a' =>
    have hdq : (applyOp db (Op.getCodeOp a')).diffs = db.diffs := GetCode_snd_diffs db a'
    exact ⟨hdq ▸ h.1, fun x sd hx => h.2 x sd (hdq ▸ hx)⟩
  | addPreimageOp h' p' => exact h
  | snapshotOp => exact h
  | revertToSnapshotOp i => exact h
  | setNonceOp a' n => exact SetNonce_diffsWF db a' n h
  | addBalanceOp a' amt => exact AddBalance_diffsWF db a' amt h
  | subBalanceOp a' amt => exact SubBalance_diffsWF db a' amt h
  | setStateOp a' k' v' io => exact setState_diffsWF db a' k' v' io h

theorem diffsWF_run (db : CachingStateDB) (ops : List Op) (h : diffsWF db) :
    diffsWF (run db ops) := by
  induction ops generalizing db with
  | nil => exact h
  | cons op t ih => exact run_cons db op t ▸ ih _ (diffsWF_applyOp db op h)

theorem diffsWF_initial (r : Remote) : diffsWF (initialDB r) :=
  ⟨by simp [initialDB], fun x sd hx => by simp [initialDB, lookupA] at hx⟩

/-- The storage-override writes `applyOverrides` performs, as operations. -/
def overrideOps (ovs : List Override) : List Op :=
  ovs.flatMap fun ov =>
    ov.Storage.map fun so => Op.setStateOp ov.ContractAddress so.Key so.Value true

/-- The override list flattened to `(address, key, value)` triples, in
application order. -/
def flatOverrides (ovs : List Override) : List (Addr × Hash × Hash) :=
  ovs.flatMap fun ov => ov.Storage.map fun so => (ov.ContractAddress, so.Key, so.Value)

theorem overrideOps_eq_map (ovs : List Override) :
    overrideOps ovs = (flatOverrides ovs).map fun tr => Op.setStateOp tr.1 tr.2.1 tr.2.2 true := by
  unfold overrideOps flatOverrides
  induction ovs with
  | nil => rfl
  | cons ov t ih => simp [List.flatMap_cons, ih, List.map_map, Function.comp_def]

theorem applyOverrides_eq_run (db : CachingStateDB) (ovs : List Override) :
    applyOverrides db ovs = run { db with Overrides := ovs } (overrideOps ovs) := by
  unfold applyOverrides overrideOps run
  generalize { db with Overrides := ovs } = db₀
  induction ovs generalizing db₀ with
  | nil => rfl
  | cons ov t ih =>
    rw [List.foldl_cons, List.flatMap_cons, List.foldl_append, ih]
    congr 1
    generalize db₀ = db₁
    induction ov.Storage generalizing db₁ with
    | nil => rfl
    | cons so st ihs =>
      rw [List.foldl_cons, List.map_cons, List.foldl_cons, ihs]
      rfl

theorem filter_singleton_split {α : Type} {l : List α} {pr : α → Bool} {x : α}
    (h : l.filter pr = [x]) :
    ∃ l₁ l₂, l = l₁ ++ x :: l₂ ∧ (∀ y ∈ l₁, pr y = false) ∧ (∀ y ∈ l₂, pr y = false) := by
  induction l with
  | nil => simp at h
  | cons hd t ih =>
    rw [List.filter_cons] at h
    by_cases hp : pr hd
    · rw [if_pos hp] at h
      injection h with h1 h2
      subst h1
      exact ⟨[], t, by simp, by simp, fun y hy => by
        have := List.filter_eq_nil_iff.mp h2 y hy
        simpa using this⟩
    · rw [if_neg (by simpa using hp)] at h
      obtain ⟨l₁, l₂, hl, h₁, h₂⟩ := ih h
      exact ⟨hd :: l₁, l₂, by simp [hl], by
        intro y hy
        rcases List.mem_cons.mp hy with rfl | hy'
        · simpa using hp
        · exact h₁ y hy', h₂⟩

theorem setState_snd_preimages (db : CachingStateDB) (a : Addr) (k v : Hash) (io : Bool) :
    (setState db a k v io).2.preimages = db.preimages := by
  unfold setState
  split
  rename_i vf db₁ heq
  have hd : db₁.preimages = db.preimages := by rw [← GetState_snd_preimages db a k, heq]
  dsimp only
  exact hd

end StateDiffRepo

namespace StateDiffRepo

theorem preimages_run_setStates (l : List (Addr × Hash × Hash)) (db : CachingStateDB) :
    (run db (l.map fun tr => Op.setStateOp tr.1 tr.2.1 tr.2.2 true)).preimages
      = db.preimages := by
  induction l generalizing db with
  | nil => rfl
  | cons tr t ih =>
    rw [List.map_cons, run_cons, ih]
    exact setState_snd_preimages db tr.1 tr.2.1 tr.2.2 true

theorem noSlotWrite_of_filter_false (a : Addr) (k : Hash) (l : List (Addr × Hash × Hash))
    (h : ∀ y ∈ l, (y.1 == a && y.2.1 == k) = false) :
    noSlotWrite a k (l.map fun tr => Op.setStateOp tr.1 tr.2.1 tr.2.2 true) := by
  intro op hop
  obtain ⟨tr, htr, rfl⟩ := List.mem_map.mp hop
  intro hw
  obtain ⟨h1, h2⟩ := hw
  have := h tr htr
  simp [h1, h2] at this

/-- After `applyOverrides` on a fresh store, the slot's diff entry carries the
override's literal value as both `ValueBefore` and `ValueAfter` — no
remote-fetched value is recorded. -/
theorem applyOverrides_entry (r : Remote) (ovs : List Override) (a : Addr) (k v : Hash)
    (hov : (flatOverrides ovs).filter (fun tr => tr.1 == a && tr.2.1 == k) = [(a, k, v)]) :
    storageEntry (applyOverrides (initialDB r) ovs) a k
      = some { Key := k, ValueBefore := v, ValueAfter := v, Preimage := "", isSet := true } := by
  rw [applyOverrides_eq_run, overrideOps_eq_map]
  obtain ⟨l₁, l₂, hl, h₁, h₂⟩ := filter_singleton_split hov
  rw [hl, List.map_append, List.map_cons]
  have hsplit : (l₁.map fun tr => Op.setStateOp tr.1 tr.2.1 tr.2.2 true)
        ++ Op.setStateOp a k v true :: (l₂.map fun tr => Op.setStateOp tr.1 tr.2.1 tr.2.2 true)
      = ((l₁.map fun tr => Op.setStateOp tr.1 tr.2.1 tr.2.2 true) ++ [Op.setStateOp a k v true])
        ++ (l₂.map fun tr => Op.setStateOp tr.1 tr.2.1 tr.2.2 true) := by simp
  rw [hsplit, run_append, run_append]
  set db₀ : CachingStateDB := { initialDB r with Overrides := ovs } with hdb₀
  set db₁ := run db₀ (l₁.map fun tr => Op.setStateOp tr.1 tr.2.1 tr.2.2 true) with hdb₁
  have hnone : storageEntry db₁ a k = none := by
    rw [hdb₁, storageEntry_run_of_no_writes db₀ a k _ (noSlotWrite_of_filter_false a k l₁ h₁)]
    simp [storageEntry, hdb₀, initialDB, lookupA]
  have hpre : db₁.preimages = [] := by
    rw [hdb₁, preimages_run_setStates]
    simp [hdb₀, initialDB]
  have hfirst := storageEntry_setState_first db₁ a k v true hnone
  rw [storageEntry_run_of_no_writes _ a k _ (noSlotWrite_of_filter_false a k l₂ h₂)]
  show storageEntry (setState db₁ a k v true).2 a k = _
  rw [hfirst, hpre]
  rfl

/-- Every rendered JSON change traces back to a storage diff of an input
`StateDiff` with the same address and key, and a genuine before/after
difference. -/
theorem convertDiffsToJSON_src (g : FileGenerator) (diffs : List StateDiff)
    (sc : StateChangeJ) (ch : ChangeJ) (hsc : sc ∈ convertDiffsToJSON g diffs)
    (hch : ch ∈ sc.Changes) :
    ∃ sd ∈ diffs, sd.Address = sc.Address
      ∧ ∃ pr ∈ sd.StorageDiffs, pr.2.Key = ch.Key
        ∧ pr.2.ValueBefore ≠ pr.2.ValueAfter := by
  obtain ⟨sd, hsd, hf⟩ := List.mem_filterMap.mp hsc
  dsimp only at hf
  split at hf
  · exact absurd hf (by simp)
  · injection hf with hf
    subst hf
    obtain ⟨d, hd, hfd⟩ := List.mem_filterMap.mp hch
    split at hfd
    · exact absurd hfd (by simp)
    · rename_i hne
      injection hfd with hfd
      subst hfd
      obtain ⟨pr, hpr, rfl⟩ := List.mem_map.mp ((List.mem_insertionSort sdfLE).mp hd)
      exact ⟨sd, (List.mem_insertionSort sdLE).mp hsd, rfl, pr, hpr, rfl, hne⟩

end StateDiffRepo

namespace StateDiffRepo

/-- C2: an overridden slot's `valueBefore` is the override's literal value
(independent of the remote chain — the same `r` is universally quantified and
never read), and when the simulation's last write to that slot stores the same
value again, the rendered diff set contains no entry for that address/slot
pair. -/
theorem C2_theorem (r : Remote) (ovs : List Override) (a : Addr) (k v : Hash)
    (p q : List Op) (chainId : String) (cfg : Config) (fuel : Nat)
    (hov : (flatOverrides ovs).filter (fun tr => tr.1 == a && tr.2.1 == k) = [(a, k, v)])
    (hq : noSlotWrite a k q) :
    storageEntry (applyOverrides (initialDB r) ovs) a k
      = some { Key := k, ValueBefore := v, ValueAfter := v, Preimage := "", isSet := true }
    ∧ (∃ d, storageEntry
          (run (applyOverrides (initialDB r) ovs) (p ++ Op.setStateOp a k v false :: q)) a k
          = some d ∧ d.ValueBefore = v ∧ d.ValueAfter = v)
    ∧ ∀ sc ∈ convertDiffsToJSON
          { db := run (applyOverrides (initialDB r) ovs) (p ++ Op.setStateOp a k v false :: q),
            chainId := chainId, cfg := cfg, fuel := fuel }
          (GetStateDiffs (run (applyOverrides (initialDB r) ovs)
            (p ++ Op.setStateOp a k v false :: q))),
        ∀ ch ∈ sc.Changes, ¬ (sc.Address = a ∧ ch.Key = k) := by
  have h₁ := applyOverrides_entry r ovs a k v hov
  set db₁ := applyOverrides (initialDB r) ovs with hdb₁def
  obtain ⟨d₁, hd₁, hs₁, hv₁⟩ := storageEntry_stable_run db₁ a k p _ h₁ rfl
  have hlater := storageEntry_setState_later (run db₁ p) a k v false d₁ hd₁ hs₁
  have hrw : run db₁ (p ++ Op.setStateOp a k v false :: q)
      = run (applyOp (run db₁ p) (Op.setStateOp a k v false)) q := by
    rw [show p ++ Op.setStateOp a k v false :: q
        = (p ++ [Op.setStateOp a k v false]) ++ q by simp, run_append, run_append]
    rfl
  have hfin : storageEntry (run db₁ (p ++ Op.setStateOp a k v false :: q)) a k
      = some { d₁ with ValueAfter := v, Preimage := (lookupA (run db₁ p).preimages k).getD "" } := by
    rw [hrw, storageEntry_run_of_no_writes _ a k q hq]
    exact hlater
  have hvb : d₁.ValueBefore = v := by rw [hv₁]
  refine ⟨h₁, ⟨_, hfin, by simpa using hvb, rfl⟩, ?_⟩
  intro sc hsc ch hch hand
  obtain ⟨ha, hk⟩ := hand
  have hwf : diffsWF (run db₁ (p ++ Op.setStateOp a k v false :: q)) := by
    apply diffsWF_run
    rw [hdb₁def, applyOverrides_eq_run]
    apply diffsWF_run
    exact ⟨by simp [initialDB], fun x sd hx => by simp [initialDB, lookupA] at hx⟩
  obtain ⟨sd, hsdmem, haddr, ⟨k₀, d₀⟩, hprmem, hkey, hneq⟩ :=
    convertDiffsToJSON_src _ _ sc ch hsc hch
  obtain ⟨⟨x, sd'⟩, hxmem, hsnd⟩ := List.mem_map.mp hsdmem
  cases hsnd
  have hlook : lookupA (run db₁ (p ++ Op.setStateOp a k v false :: q)).diffs x = some sd' :=
    lookupA_eq_of_mem_nodup hwf.1 hxmem
  have hxa : x = a := ((hwf.2 x sd' hlook).1).symm.trans (haddr.trans ha)
  subst hxa
  have hent := hfin
  unfold storageEntry at hent
  rw [hlook, Option.some_bind] at hent
  have hprlook : lookupA sd'.StorageDiffs k₀ = some d₀ :=
    lookupA_eq_of_mem_nodup (hwf.2 x sd' hlook).2.1 hprmem
  have hd₀key : d₀.Key = k₀ := (hwf.2 x sd' hlook).2.2 k₀ d₀ hprlook
  have hk₀ : k₀ = k := by
    rw [← hd₀key]
    simp only at hkey
    rw [hkey, hk]
  subst hk₀
  rw [hprlook] at hent
  injection hent with hent
  apply hneq
  rw [hent]
  simp [hvb]

end StateDiffRepo

namespace StateDiffRepo

def ovsC2 : List Override :=
  [{ ContractAddress := "0xaa", Storage := [{ Key := "0x3", Value := "0x1" }] }]

theorem C2_theorem_witness :
    ((flatOverrides ovsC2).filter (fun tr => tr.1 == "0xaa" && tr.2.1 == "0x3")
        = [("0xaa", "0x3", "0x1")]
     ∧ noSlotWrite "0xaa" "0x3" ([] : List Op))
    ∧ storageEntry (applyOverrides (initialDB remoteC1) ovsC2) "0xaa" "0x3"
        = some { Key := "0x3", ValueBefore := "0x1", ValueAfter := "0x1", Preimage := "",
                 isSet := true } :=
  ⟨⟨by decide, by decide⟩,
    (C2_theorem remoteC1 ovsC2 "0xaa" "0x3" "0x1" [] [] "1"
      { Contracts := [], StorageLayouts := [] } 1 (by decide) (by decide)).1⟩

/-! ### Config loading (`Config.UnmarshalYAML`) -/

/-- The raw `slots` field of a contract in the YAML: a string, null/absent, or
an inline table (the `any`-typed `Slots` of `auxContractDefinition`). -/
inductive SlotsField where
  | strv (s : String)
  | nullv
  | mapv (m : List (String × Slot))
deriving Repr, DecidableEq

/-- `auxContractDefinition`. -/
structure AuxContractDefinition where
  Name : String
  Slots : SlotsField
deriving Repr, DecidableEq

/-- The per-contract `switch` of `Config.UnmarshalYAML`: a string reference
`$\x7b\x7bstorage-layouts.NAME\x7d\x7d` resolves against the storage-layouts
table (missing name is an error), an invalid string is an error, null/absent
becomes an empty map, and any other type — an inline table included — is an
error. -/
def resolveContractSlots (layouts : List (String × List (String × Slot)))
    (chainID contractAddr : String) (rc : AuxContractDefinition) : Except String Contract :=
  match rc.Slots with
  | .strv sv =>
    if strStartsWith sv "$\x7b\x7bstorage-layouts." && strEndsWith sv "\x7d\x7d" then
      let layoutName := strDropRight (strDrop sv 19) 2
      match lookupA layouts layoutName with
      | some layout => .ok { Name := rc.Name, Slots := layout }
      | none => .error ("storage layout '" ++ layoutName ++ "' referenced by contract '"
          ++ rc.Name ++ "' (address: " ++ contractAddr ++ ", chain: " ++ chainID
          ++ ") not found in storage-layouts section")
    else
      .error ("invalid string format for slots on contract '" ++ rc.Name ++ "' (address: "
        ++ contractAddr ++ ", chain: " ++ chainID ++ ")")
  | .nullv => .ok { Name := rc.Name, Slots := [] }
  | .mapv _ =>
    .error ("unexpected type for 'slots' field in contract '" ++ rc.Name ++ "' (address: "
      ++ contractAddr ++ ", chain: " ++ chainID ++ ")")

/-- The inner loop of `UnmarshalYAML` over one chain's contracts (fail-fast). -/
def resolveContractsMap (layouts : List (String × List (String × Slot))) (chainID : String) :
    List (String × AuxContractDefinition) → Except String (List (String × Contract))
  | [] => .ok []
  | (addr, rc) :: t =>
    match resolveContractSlots layouts chainID addr rc with
    | .error e => .error e
    | .ok c =>
      match resolveContractsMap layouts chainID t with
      | .error e => .error e
      | .ok rest => .ok ((addr, c) :: rest)

/-- The outer loop of `UnmarshalYAML` over chains (fail-fast). -/
def resolveChains (layouts : List (String × List (String × Slot))) :
    List (String × List (String × AuxContractDefinition)) →
      Except String (List (String × List (String × Contract)))
  | [] => .ok []
  | (chainID, cts) :: t =>
    match resolveContractsMap layouts chainID cts with
    | .error e => .error e
    | .ok resolved =>
      match resolveChains layouts t with
      | .error e => .error e
      | .ok rest => .ok ((chainID, resolved) :: rest)

/-- `Config.UnmarshalYAML` after the raw YAML parse (the `yaml.Unmarshal` of
the embedded file is the external library collaborator; its output is the
`rawContracts`/`layouts` arguments).  Go map iteration order is unspecified,
so the model fixes a list order; which error message surfaces may depend on
order, but whether loading fails does not. -/
def UnmarshalYAML (rawContracts : List (String × List (String × AuxContractDefinition)))
    (layouts : List (String × List (String × Slot))) : Except String Config :=
  match resolveChains layouts rawContracts with
  | .error e => .error e
  | .ok contracts => .ok { Contracts := contracts, StorageLayouts := layouts }

theorem strStartsWith_append (x y : String) : strStartsWith (x ++ y) x = true := by
  simp [strStartsWith, String.data_append, List.take_left]

theorem strEndsWith_append (x y : String) : strEndsWith (x ++ y) y = true := by
  simp only [strEndsWith, String.data_append, List.length_append]
  rw [show x.data.length + y.data.length - y.data.length = x.data.length by omega,
    List.drop_left]
  simp

theorem extract_mid (P X S : List Char) :
    List.take ((List.drop P.length (P ++ X ++ S)).length - S.length)
      (List.drop P.length (P ++ X ++ S)) = X := by
  rw [List.append_assoc, List.drop_left, List.length_append,
    show X.length + S.length - S.length = X.length by omega, List.take_left]

theorem extractLayoutName (lname : String) :
    strDropRight (strDrop ("$\x7b\x7bstorage-layouts." ++ lname ++ "\x7d\x7d") 19) 2
      = lname := by
  apply String.ext
  simp only [strDrop, strDropRight, String.data_append]
  exact extract_mid ("$\x7b\x7bstorage-layouts." : String).data lname.data
    ("\x7d\x7d" : String).data

end StateDiffRepo

namespace StateDiffRepo

def slotC8 : Slot := { Typ := "uint256", Summary := "s", OverrideMeaning := "o" }

def inlineContractC8 : AuxContractDefinition :=
  { Name := "Inline", Slots := .mapv [("0x0", slotC8)] }

/-- C8 counterexample: a contract whose `slots` field is an inline table is
REJECTED by `UnmarshalYAML` (it falls into the `default` arm of the type
switch, `unexpected type for 'slots' field`), so configuration loading does
not accept the inline-table form the claim allows. -/
theorem C8_counterexample :
    (UnmarshalYAML [("1", [("0xaa", inlineContractC8)])] [("gnosis-safe", [("0x4", slotC8)])]).toOption
      = none := by decide

/-- C8 (amended): a contract's `slots` must be absent/null (empty map) or a
string reference `$\x7b\x7bstorage-layouts.NAME\x7d\x7d`; a resolvable
reference substitutes the exact contents of the named template, an absent
template name is a fatal load error, and an inline table (or any other form)
is also a fatal load error. -/
theorem C8_theorem (layouts : List (String × List (String × Slot)))
    (chainID addr name lname : String) (layout : List (String × Slot))
    (m : List (String × Slot)) :
    (lookupA layouts lname = some layout →
      resolveContractSlots layouts chainID addr
          { Name := name, Slots := .strv ("$\x7b\x7bstorage-layouts." ++ lname ++ "\x7d\x7d") }
        = .ok { Name := name, Slots := layout }
      ∧ UnmarshalYAML [(chainID, [(addr,
            ({ Name := name, Slots := .strv ("$\x7b\x7bstorage-layouts." ++ lname ++ "\x7d\x7d") }
              : AuxContractDefinition))])] layouts
        = .ok { Contracts := [(chainID, [(addr, { Name := name, Slots := layout })])],
                StorageLayouts := layouts })
    ∧ (lookupA layouts lname = none →
        (UnmarshalYAML [(chainID, [(addr,
            ({ Name := name, Slots := .strv ("$\x7b\x7bstorage-layouts." ++ lname ++ "\x7d\x7d") }
              : AuxContractDefinition))])] layouts).toOption = none)
    ∧ resolveContractSlots layouts chainID addr { Name := name, Slots := .nullv }
        = .ok { Name := name, Slots := [] }
    ∧ (UnmarshalYAML [(chainID, [(addr, ({ Name := name, Slots := .mapv m }
          : AuxContractDefinition))])] layouts).toOption = none := by
  have hres : resolveContractSlots layouts chainID addr
      { Name := name, Slots := .strv ("$\x7b\x7bstorage-layouts." ++ lname ++ "\x7d\x7d") }
      = (match lookupA layouts lname with
        | some layout => .ok { Name := name, Slots := layout }
        | none => .error ("storage layout '" ++ lname ++ "' referenced by contract '"
            ++ name ++ "' (address: " ++ addr ++ ", chain: " ++ chainID
            ++ ") not found in storage-layouts section")) := by
    unfold resolveContractSlots
    dsimp only
    rw [show strStartsWith ("$\x7b\x7bstorage-layouts." ++ lname ++ "\x7d\x7d")
          "$\x7b\x7bstorage-layouts." = true from by
        rw [String.append_assoc]
        exact strStartsWith_append _ (lname ++ "\x7d\x7d")]
    rw [strEndsWith_append ("$\x7b\x7bstorage-layouts." ++ lname) "\x7d\x7d"]
    rw [extractLayoutName lname]
    rfl
  refine ⟨?_, ?_, rfl, ?_⟩
  · intro hl
    have h1 : resolveContractSlots layouts chainID addr
        { Name := name, Slots := .strv ("$\x7b\x7bstorage-layouts." ++ lname ++ "\x7d\x7d") }
        = .ok { Name := name, Slots := layout } := by rw [hres, hl]
    refine ⟨h1, ?_⟩
    unfold UnmarshalYAML resolveChains resolveContractsMap
    rw [h1]
    rfl
  · intro hl
    have h1 : resolveContractSlots layouts chainID addr
        { Name := name, Slots := .strv ("$\x7b\x7bstorage-layouts." ++ lname ++ "\x7d\x7d") }
        = .error ("storage layout '" ++ lname ++ "' referenced by contract '"
            ++ name ++ "' (address: " ++ addr ++ ", chain: " ++ chainID
            ++ ") not found in storage-layouts section") := by rw [hres, hl]
    unfold UnmarshalYAML resolveChains resolveContractsMap
    rw [h1]
    rfl
  · unfold UnmarshalYAML resolveChains resolveContractsMap resolveContractSlots
    rfl

def layoutsC8 : List (String × List (String × Slot)) := [("gnosis-safe", [("0x4", slotC8)])]

theorem C8_theorem_witness :
    lookupA layoutsC8 "gnosis-safe" = some [("0x4", slotC8)]
    ∧ (resolveContractSlots layoutsC8 "1" "0xaa"
          { Name := "Safe",
            Slots := .strv ("$\x7b\x7bstorage-layouts." ++ "gnosis-safe" ++ "\x7d\x7d") }
        = .ok { Name := "Safe", Slots := [("0x4", slotC8)] }
      ∧ UnmarshalYAML [("1", [("0xaa",
            ({ Name := "Safe",
               Slots := .strv ("$\x7b\x7bstorage-layouts." ++ "gnosis-safe" ++ "\x7d\x7d") }
              : AuxContractDefinition))])] layoutsC8
        = .ok { Contracts := [("1", [("0xaa", { Name := "Safe", Slots := [("0x4", slotC8)] })])],
                StorageLayouts := layoutsC8 }) :=
  ⟨by decide,
    (C8_theorem layoutsC8 "1" "0xaa" "Safe" "gnosis-safe" [("0x4", slotC8)] []).1 (by decide)⟩

/-- C9: a malformed overrides payload (the external `json.Unmarshal`
collaborator returns an error, modelled by `none`) leaves the store untouched
— zero applied overrides, empty diff set — and both report builders still run
on it, producing empty override and change sections rather than aborting. -/
theorem C9_theorem (db : CachingStateDB) (r : Remote) (chainId : String) (cfg : Config)
    (fuel : Nat) :
    SetOverrides db none = db
    ∧ GetOverrides (SetOverrides (initialDB r) none) = []
    ∧ GetStateDiffs (SetOverrides (initialDB r) none) = []
    ∧ convertOverridesToJSON
        { db := SetOverrides (initialDB r) none, chainId := chainId, cfg := cfg, fuel := fuel }
        (GetOverrides (SetOverrides (initialDB r) none)) = []
    ∧ convertDiffsToJSON
        { db := SetOverrides (initialDB r) none, chainId := chainId, cfg := cfg, fuel := fuel }
        (GetStateDiffs (SetOverrides (initialDB r) none)) = [] :=
  ⟨rfl, rfl, rfl, rfl, rfl⟩

end StateDiffRepo
